import Mathlib

/-!
Verification of the LIL ("Little Interpreted Language") interpreter core
from `common/cli_lil.c` (U-Boot port of LIL).

The development is a shallow embedding: C byte strings become `List Char`
(each `Char` standing for one byte), nullable pointers become `Option`,
and the mutable interpreter state becomes a record threaded through the
functions.  Every definition follows the corresponding C function; fuel
arguments stand for the C call stack (the C code can recurse without
bound through `lil_parse`).

Configuration: the interpreter model fixes the base configuration
(`CONFIG_LIL_FULL` disabled), which registers the fourteen standard
commands of `register_stdcmds`.  The expression evaluator takes the
`CONFIG_LIL_FULL` flag as an explicit `full : Bool` parameter because
several of its operator levels are compiled out in the base
configuration.
-/

set_option maxHeartbeats 1000000
set_option maxRecDepth 10000
set_option linter.unusedVariables false

/-- The NUL byte, which terminates C strings. -/
def nulChar : Char := Char.ofNat 0

/-- Left brace byte (written via its code point). -/
def lbrace : Char := Char.ofNat 0x7b

/-- Right brace byte (written via its code point). -/
def rbrace : Char := Char.ofNat 0x7d

/-- C string read at an index: positions past the end read as the NUL
terminator, exactly as reading a C buffer of that length does. -/
def atC (s : List Char) (i : Nat) : Char := s.getD i nulChar

/-- Modelled from the spec: `isspace` of U-Boot's byte-level ASCII
classification (`ctype`), which is not part of the sources under
verification.  True for space, TAB, LF, VT, FF, CR. -/
def isspaceB (c : Char) : Bool :=
  c = ' ' || c = '\t' || c = '\n' || c = Char.ofNat 0x0b || c = Char.ofNat 0x0c || c = '\r'

/-- Modelled from the spec: `ispunct` of the byte-level ASCII
classification: printable, neither alphanumeric nor space. -/
def ispunctB (c : Char) : Bool :=
  (0x21 ≤ c.toNat && c.toNat ≤ 0x2f) || (0x3a ≤ c.toNat && c.toNat ≤ 0x40) ||
  (0x5b ≤ c.toNat && c.toNat ≤ 0x60) || (0x7b ≤ c.toNat && c.toNat ≤ 0x7e)

/-- Modelled from the spec: `isdigit` of the byte-level ASCII classification. -/
def isdigitB (c : Char) : Bool := '0' ≤ c && c ≤ '9'

/-- `islilspecial` from the source: the language's special characters. -/
def islilspecial (ch : Char) : Bool :=
  ch = '$' || ch = lbrace || ch = rbrace || ch = '[' || ch = ']' ||
  ch = '"' || ch = '\'' || ch = ';'

/-- `eolchar` from the source. -/
def eolchar (ch : Char) : Bool := ch = '\n' || ch = '\r' || ch = ';'

/-- A LIL value: an owned byte string.  The C `struct lil_value` also
stores the length; here the list carries it. -/
abbrev LilValue := List Char

/-- `lil_to_string`: a NULL or empty value reads as the empty string,
otherwise the value's bytes.  The argument is the nullable C pointer. -/
def lil_to_string (v : Option LilValue) : List Char := v.getD []

/-- `lil_clone_value`: cloning a NULL pointer gives NULL, otherwise a copy
(values are plain lists here, so a copy is the value itself). -/
def lil_clone_value (v : Option LilValue) : Option LilValue := v

/-- The scan inside `needs_escape`: walk the bytes of a C string (stopping
at an embedded NUL, as the `str[i]` loop does) looking for punctuation or
whitespace. -/
def needs_escape_scan : List Char → Bool
  | [] => false
  | c :: rest =>
    if c = nulChar then false
    else if ispunctB c || isspaceB c then true
    else needs_escape_scan rest

/-- `needs_escape`: an empty (or NULL, or NUL-leading) string needs
escaping, as does any string containing punctuation or whitespace. -/
def needs_escape (s : List Char) : Bool :=
  match s with
  | [] => true
  | c :: _ => if c = nulChar then true else needs_escape_scan s

/-- The byte sequence `}"\o"{` emitted for a literal `{` inside an escaped
list entry. -/
def escOpenSeq : List Char := [rbrace, '"', '\\', 'o', '"', lbrace]

/-- The byte sequence `}"\c"{` emitted for a literal `}` inside an escaped
list entry. -/
def escCloseSeq : List Char := [rbrace, '"', '\\', 'c', '"', lbrace]

/-- The body produced by the escaping loop of `lil_list_to_value` for one
entry: braces are smuggled through quote/escape round-trips, everything
else is copied verbatim. -/
def escBody (w : List Char) : List Char :=
  w.flatMap fun c =>
    if c = lbrace then escOpenSeq
    else if c = rbrace then escCloseSeq
    else [c]

/-- Serialization of a single list entry by `lil_list_to_value` when
escaping is requested: entries that need escaping are brace-wrapped with
the smuggling encoding, others are copied verbatim. -/
def serializeEntry (doEscape : Bool) (w : List Char) : List Char :=
  if doEscape && needs_escape w then lbrace :: escBody w ++ [rbrace]
  else w

/-- `lil_list_to_value`: serialize a list of values into one value,
separating entries with single spaces. -/
def lil_list_to_value (l : List LilValue) (doEscape : Bool) : LilValue :=
  match l with
  | [] => []
  | w :: rest =>
    serializeEntry doEscape w ++
      rest.flatMap (fun w' => ' ' :: serializeEntry doEscape w')

/-- The hashmap of the source keeps 256 buckets of (key, pointer) pairs;
insertion with an existing key replaces the pointer in place.  Bucket
structure and ordering are not observable (the spec notes key ordering is
not observable), so the model collapses the buckets into one association
list with the same replace-or-append behaviour. -/
def hm_put {α : Type} (m : List (List Char × α)) (k : List Char) (v : α) :
    List (List Char × α) :=
  match m with
  | [] => [(k, v)]
  | (k', v') :: rest =>
    if k' = k then (k', v) :: rest else (k', v') :: hm_put rest k v

/-- `hm_get`: look a key up, NULL (here `none`) when absent. -/
def hm_get {α : Type} (m : List (List Char × α)) (k : List Char) : Option α :=
  match m with
  | [] => none
  | (k', v') :: rest => if k' = k then some v' else hm_get rest k

/-- `hm_has`. -/
def hm_has {α : Type} (m : List (List Char × α)) (k : List Char) : Bool :=
  (hm_get m k).isSome

/-- A variable: name, optional watch program (a NULL `w` in C is `none`),
and current value (the C pointer can be NULL).  The owning-environment
back pointer of the C struct is represented positionally: variables are
addressed as (environment position, variable index). -/
structure LilVar where
  n : List Char
  w : Option (List Char)
  v : Option LilValue
  deriving DecidableEq, Repr

instance : Inhabited LilVar := ⟨⟨[], none, none⟩⟩

/-- An environment (lexical scope).  The parent link is positional: the
interpreter keeps the chain from the current environment (head) down to
the root (last).  `func` is an index into the interpreter's command
vector. -/
structure LilEnv where
  func : Option Nat := none
  catcher_for : Option LilValue := none
  var : List LilVar := []
  retval : Option LilValue := none
  retval_set : Bool := false
  breakrun : Bool := false
  deriving DecidableEq, Repr

instance : Inhabited LilEnv := ⟨{}⟩

/-- `lil_find_local_var` consults the environment's `varmap` hashmap.  The
varmap agrees with the variable array except that creating a same-named
variable re-points the map entry at the newest one, so the lookup returns
the index of the last variable with the given name. -/
def lil_find_local_var (vars : List LilVar) (name : List Char) : Option Nat :=
  match vars with
  | [] => none
  | v :: rest =>
    match lil_find_local_var rest name with
    | some i => some (i + 1)
    | none => if v.n = name then some 0 else none

/-- `lil_find_var` over an environment chain (head = the environment the
search starts at, last = the root environment): a local hit wins;
otherwise, unless the start is the root itself, the search falls through
directly to the root, exactly as the C recursion
`lil_find_var(lil, lil->rootenv, name)` does.  The result is the
(position in the chain, variable index) of the hit. -/
def lil_find_var : (chain : List LilEnv) → (name : List Char) → Option (Nat × Nat)
  | [], _ => none
  | env :: rest, name =>
    match lil_find_local_var env.var name with
    | some vi => some (0, vi)
    | none =>
      match rest with
      | [] => none
      | _ :: _ =>
        (lil_find_local_var ((env :: rest).getLast (by simp)).var name).map
          (fun vi => (rest.length, vi))

/-- A registered function: either a host procedure (built-in) or a
script-defined body with argument names.  `proc` identifies which of the
modelled built-ins implements it. -/
inductive ProcId
  | pdec | peval | pexpr | pfor | pforeach | pfunc | pif | pinc | plocal
  | preturn | pset | pstrcmp | ptry | pwhile
  deriving DecidableEq, Repr

structure LilFunc where
  name : List Char
  code : Option LilValue := none
  argnames : Option (List LilValue) := none
  proc : Option ProcId := none
  deriving DecidableEq, Repr

instance : Inhabited LilFunc := ⟨⟨[], none, none, none⟩⟩

/-- Split a C string at the first `.`: the `strchr(name, '.')` of
`lil_find_cmd`.  Returns the part before and after the dot. -/
def splitFirstDot (name : List Char) : Option (List Char × List Char) :=
  match name with
  | [] => none
  | c :: rest =>
    if c = '.' then some ([], rest)
    else (splitFirstDot rest).map (fun p => (c :: p.1, p.2))

/-- `lil_find_cmd`: command lookup.  When the name contains a dot the C
code writes a NUL over the first dot, looks up the resulting prefix, and
writes the dot back.  The model returns both the lookup result and the
contents of the name buffer after the call (second component), so that
the restoration is visible. -/
def lil_find_cmd (cmdmap : List (List Char × Nat)) (name : List Char) :
    Option Nat × List Char :=
  match splitFirstDot name with
  | none => (hm_get cmdmap name, name)
  | some (pre, post) => (hm_get cmdmap pre, pre ++ '.' :: post)

/-! ## Expression evaluator (`struct expreval` and the `ee_` family)

All arithmetic is on signed 64-bit integers (`ssize_t`); the spec fixes
two's-complement wrap-around, modelled by `wrap64`.  The
`CONFIG_LIL_FULL` compile-time flag guards several operator levels and is
passed explicitly as `full`. -/

/-- Two's-complement wrap into the signed 64-bit range. -/
def wrap64 (x : Int) : Int := (x + 2 ^ 63).emod (2 ^ 64) - 2 ^ 63

/-- Expression-evaluator error codes (`EERR_*`). -/
def EERR_NO_ERROR : Nat := 0
def EERR_SYNTAX_ERROR : Nat := 1
def EERR_DIVISION_BY_ZERO : Nat := 3
def EERR_INVALID_EXPRESSION : Nat := 4

structure Expreval where
  code : List Char
  len : Nat
  head : Nat
  ival : Int
  error : Nat
  deriving DecidableEq, Repr

/-- `ee_invalidpunct`: punctuation other than the characters that may
start an operand. -/
def ee_invalidpunct (ch : Char) : Bool :=
  ispunctB ch && ch ≠ '!' && ch ≠ '~' && ch ≠ '(' && ch ≠ ')' &&
  ch ≠ '-' && ch ≠ '+'

/-- `ee_skip_spaces` (step-bounded like the tokenizer scans: the loop
stops at `len`, so `len + 1` steps suffice). -/
def ee_skip_spaces_gas : Nat → Expreval → Expreval
  | 0, e => e
  | gas + 1, e =>
    if e.head < e.len ∧ isspaceB (atC e.code e.head) then
      ee_skip_spaces_gas gas { e with head := e.head + 1 }
    else e

def ee_skip_spaces (e : Expreval) : Expreval := ee_skip_spaces_gas (e.len + 1) e

/-- The digit-accumulation loop of `ee_numeric_element` (step-bounded
like the tokenizer scans). -/
def ee_num_loop_gas : Nat → Expreval → Expreval
  | 0, e => e
  | gas + 1, e =>
    if e.head < e.len ∧ isdigitB (atC e.code e.head) then
      ee_num_loop_gas gas { e with
        ival := wrap64 (e.ival * 10 + (((atC e.code e.head).toNat : Int) - 48)),
        head := e.head + 1 }
    else e

def ee_num_loop (e : Expreval) : Expreval := ee_num_loop_gas (e.len + 1) e

/-- `ee_numeric_element`. -/
def ee_numeric_element (e : Expreval) : Expreval :=
  ee_num_loop { ee_skip_spaces e with ival := 0 }

/-- `ee_element`: digits parse as a number; anything else becomes the
value 1 with the special `EERR_INVALID_EXPRESSION` flag. -/
def ee_element (e : Expreval) : Expreval :=
  if isdigitB (atC e.code e.head) then ee_numeric_element e
  else { e with ival := 1, error := EERR_INVALID_EXPRESSION }

/-- The `/` case arm of `ee_muldiv`: division by zero is the error,
otherwise C truncated division (with wrap for the single overflowing
case). -/
def ee_div_slash (oival ival : Int) : Option Int :=
  if ival = 0 then none else some (wrap64 (Int.tdiv oival ival))

/-- The `\` case arm of `ee_muldiv`; the source's code for it is
identical to the `/` arm. -/
def ee_div_backslash (oival ival : Int) : Option Int :=
  if ival = 0 then none else some (wrap64 (Int.tdiv oival ival))

/-- The `%` case arm of `ee_muldiv` (C truncated remainder). -/
def ee_div_mod (oival ival : Int) : Option Int :=
  if ival = 0 then none else some (Int.tmod oival ival)

/-- Left shift of `ee_shift`: the C `<<` on a signed 64-bit value,
wrapped.  A negative shift count is undefined behaviour in C; the model
shifts by the count's absolute floor at zero. -/
def eeShiftL (o i : Int) : Int := wrap64 (o * 2 ^ i.toNat)

/-- Right shift of `ee_shift`: arithmetic shift (floor division by a
power of two), the behaviour of the targeted compilers. -/
def eeShiftR (o i : Int) : Int := Int.fdiv o (2 ^ i.toNat)

/-- Unsigned 64-bit view of a wrapped signed value (for the bitwise
operators). -/
def toU64 (x : Int) : Nat := (x.emod (2 ^ 64)).toNat

/-- The C `&` on signed 64-bit two's-complement values. -/
def intAnd64 (a b : Int) : Int := wrap64 (Nat.land (toU64 a) (toU64 b) : Nat)

/-- The C `|` on signed 64-bit two's-complement values. -/
def intOr64 (a b : Int) : Int := wrap64 (Nat.lor (toU64 a) (toU64 b) : Nat)

mutual

/-- `ee_expr`: top level; an `EERR_INVALID_EXPRESSION` from the element
rule is cleared and yields 1. -/
def ee_expr (full : Bool) : Nat → Expreval → Expreval
  | 0, e => e
  | fuel + 1, e =>
    let e := ee_logor full fuel e
    if e.error = EERR_INVALID_EXPRESSION then
      { e with error := EERR_NO_ERROR, ival := 1 }
    else e

def ee_logor (full : Bool) : Nat → Expreval → Expreval
  | 0, e => e
  | fuel + 1, e => ee_logor_loop full fuel (ee_logand full fuel e)

def ee_logor_loop (full : Bool) : Nat → Expreval → Expreval
  | 0, e => e
  | fuel + 1, e =>
    if e.head < e.len ∧ e.error = EERR_NO_ERROR ∧
        atC e.code e.head = '|' ∧ atC e.code (e.head + 1) = '|' then
      let oival := e.ival
      let e := ee_logand full fuel { e with head := e.head + 2 }
      if e.error ≠ EERR_NO_ERROR then e
      else
        ee_logor_loop full fuel
          (ee_skip_spaces { e with ival := if oival ≠ 0 ∨ e.ival ≠ 0 then 1 else 0 })
    else e

def ee_logand (full : Bool) : Nat → Expreval → Expreval
  | 0, e => e
  | fuel + 1, e => ee_logand_loop full fuel (ee_skip_spaces (ee_bitor full fuel e))

def ee_logand_loop (full : Bool) : Nat → Expreval → Expreval
  | 0, e => e
  | fuel + 1, e =>
    if e.head < e.len ∧ e.error = EERR_NO_ERROR ∧
        atC e.code e.head = '&' ∧ atC e.code (e.head + 1) = '&' then
      let oival := e.ival
      let e := ee_bitor full fuel { e with head := e.head + 2 }
      if e.error ≠ EERR_NO_ERROR then e
      else
        ee_logand_loop full fuel
          (ee_skip_spaces { e with ival := if oival ≠ 0 ∧ e.ival ≠ 0 then 1 else 0 })
    else e

def ee_bitor (full : Bool) : Nat → Expreval → Expreval
  | 0, e => e
  | fuel + 1, e =>
    let e := ee_bitand full fuel e
    if !full then e else ee_bitor_loop full fuel (ee_skip_spaces e)

def ee_bitor_loop (full : Bool) : Nat → Expreval → Expreval
  | 0, e => e
  | fuel + 1, e =>
    if e.head < e.len ∧ e.error = EERR_NO_ERROR ∧
        atC e.code e.head = '|' ∧ ¬ee_invalidpunct (atC e.code (e.head + 1)) then
      let oival := e.ival
      let e := ee_bitand full fuel { e with head := e.head + 1 }
      if e.error ≠ EERR_NO_ERROR then e
      else
        ee_bitor_loop full fuel (ee_skip_spaces { e with ival := intOr64 oival e.ival })
    else e

def ee_bitand (full : Bool) : Nat → Expreval → Expreval
  | 0, e => e
  | fuel + 1, e =>
    let e := ee_equals full fuel e
    if !full then e else ee_bitand_loop full fuel (ee_skip_spaces e)

def ee_bitand_loop (full : Bool) : Nat → Expreval → Expreval
  | 0, e => e
  | fuel + 1, e =>
    if e.head < e.len ∧ e.error = EERR_NO_ERROR ∧
        atC e.code e.head = '&' ∧ ¬ee_invalidpunct (atC e.code (e.head + 1)) then
      let oival := e.ival
      let e := ee_equals full fuel { e with head := e.head + 1 }
      if e.error ≠ EERR_NO_ERROR then e
      else
        ee_bitand_loop full fuel (ee_skip_spaces { e with ival := intAnd64 oival e.ival })
    else e

def ee_equals (full : Bool) : Nat → Expreval → Expreval
  | 0, e => e
  | fuel + 1, e => ee_equals_loop full fuel (ee_skip_spaces (ee_compare full fuel e))

def ee_equals_loop (full : Bool) : Nat → Expreval → Expreval
  | 0, e => e
  | fuel + 1, e =>
    if e.head < e.len ∧ e.error = EERR_NO_ERROR ∧
        ((atC e.code e.head = '=' ∧ atC e.code (e.head + 1) = '=') ∨
         (atC e.code e.head = '!' ∧ atC e.code (e.head + 1) = '=')) then
      let oival := e.ival
      let eq := atC e.code e.head = '='
      let e := ee_compare full fuel { e with head := e.head + 2 }
      if e.error ≠ EERR_NO_ERROR then e
      else
        let v : Int := if eq then (if oival = e.ival then 1 else 0)
          else (if oival ≠ e.ival then 1 else 0)
        ee_equals_loop full fuel (ee_skip_spaces { e with ival := v })
    else e

def ee_compare (full : Bool) : Nat → Expreval → Expreval
  | 0, e => e
  | fuel + 1, e => ee_compare_loop full fuel (ee_skip_spaces (ee_shift full fuel e))

def ee_compare_loop (full : Bool) : Nat → Expreval → Expreval
  | 0, e => e
  | fuel + 1, e =>
    if e.head < e.len ∧ e.error = EERR_NO_ERROR ∧
        ((atC e.code e.head = '<' ∧ ¬ee_invalidpunct (atC e.code (e.head + 1))) ∨
         (atC e.code e.head = '>' ∧ ¬ee_invalidpunct (atC e.code (e.head + 1))) ∨
         (atC e.code e.head = '<' ∧ atC e.code (e.head + 1) = '=') ∨
         (atC e.code e.head = '>' ∧ atC e.code (e.head + 1) = '=')) then
      let oival := e.ival
      let op : Nat :=
        if atC e.code e.head = '<' ∧ ¬ee_invalidpunct (atC e.code (e.head + 1)) then 1
        else if atC e.code e.head = '>' ∧ ¬ee_invalidpunct (atC e.code (e.head + 1)) then 2
        else if atC e.code e.head = '<' ∧ atC e.code (e.head + 1) = '=' then 3
        else 4
      let e := ee_shift full fuel { e with head := e.head + (if op > 2 then 2 else 1) }
      if e.error ≠ EERR_NO_ERROR then e
      else
        let v : Int :=
          if op = 1 then (if oival < e.ival then 1 else 0)
          else if op = 2 then (if oival > e.ival then 1 else 0)
          else if op = 3 then (if oival ≤ e.ival then 1 else 0)
          else (if oival ≥ e.ival then 1 else 0)
        ee_compare_loop full fuel (ee_skip_spaces { e with ival := v })
    else e

def ee_shift (full : Bool) : Nat → Expreval → Expreval
  | 0, e => e
  | fuel + 1, e =>
    let e := ee_addsub full fuel e
    if !full then e else ee_shift_loop full fuel (ee_skip_spaces e)

def ee_shift_loop (full : Bool) : Nat → Expreval → Expreval
  | 0, e => e
  | fuel + 1, e =>
    if e.head < e.len ∧ e.error = EERR_NO_ERROR ∧
        ((atC e.code e.head = '<' ∧ atC e.code (e.head + 1) = '<') ∨
         (atC e.code e.head = '>' ∧ atC e.code (e.head + 1) = '>')) then
      let oival := e.ival
      let left := atC e.code (e.head + 1) = '<'
      let e := ee_addsub full fuel { e with head := e.head + 2 }
      if e.error ≠ EERR_NO_ERROR then e
      else
        let v := if left then eeShiftL oival e.ival else eeShiftR oival e.ival
        ee_shift_loop full fuel (ee_skip_spaces { e with ival := v })
    else e

def ee_addsub (full : Bool) : Nat → Expreval → Expreval
  | 0, e => e
  | fuel + 1, e =>
    let e := ee_muldiv full fuel e
    if !full then e else ee_addsub_loop full fuel (ee_skip_spaces e)

def ee_addsub_loop (full : Bool) : Nat → Expreval → Expreval
  | 0, e => e
  | fuel + 1, e =>
    if e.head < e.len ∧ e.error = EERR_NO_ERROR ∧
        ¬ee_invalidpunct (atC e.code (e.head + 1)) ∧
        (atC e.code e.head = '+' ∨ atC e.code e.head = '-') then
      let oival := e.ival
      let add := atC e.code e.head = '+'
      let e := ee_muldiv full fuel { e with head := e.head + 1 }
      if e.error ≠ EERR_NO_ERROR then e
      else
        let v := if add then wrap64 (e.ival + oival) else wrap64 (oival - e.ival)
        ee_addsub_loop full fuel (ee_skip_spaces { e with ival := v })
    else e

def ee_muldiv (full : Bool) : Nat → Expreval → Expreval
  | 0, e => e
  | fuel + 1, e =>
    let e := ee_unary full fuel e
    if e.error ≠ EERR_NO_ERROR ∨ !full then e
    else ee_muldiv_loop full fuel (ee_skip_spaces e)

def ee_muldiv_loop (full : Bool) : Nat → Expreval → Expreval
  | 0, e => e
  | fuel + 1, e =>
    if e.head < e.len ∧ e.error = EERR_NO_ERROR ∧
        ¬ee_invalidpunct (atC e.code (e.head + 1)) ∧
        (atC e.code e.head = '*' ∨ atC e.code e.head = '/' ∨
         atC e.code e.head = '\\' ∨ atC e.code e.head = '%') then
      let oival := e.ival
      let op := atC e.code e.head
      let e := ee_unary full fuel { e with head := e.head + 1 }
      if e.error ≠ EERR_NO_ERROR then e
      else
        let e :=
          if op = '*' then { e with ival := wrap64 (e.ival * oival) }
          else if op = '%' then
            match ee_div_mod oival e.ival with
            | none => { e with error := EERR_DIVISION_BY_ZERO }
            | some r => { e with ival := r }
          else if op = '/' then
            match ee_div_slash oival e.ival with
            | none => { e with error := EERR_DIVISION_BY_ZERO }
            | some r => { e with ival := r }
          else
            match ee_div_backslash oival e.ival with
            | none => { e with error := EERR_DIVISION_BY_ZERO }
            | some r => { e with ival := r }
        ee_muldiv_loop full fuel (ee_skip_spaces e)
    else e

def ee_unary (full : Bool) : Nat → Expreval → Expreval
  | 0, e => e
  | fuel + 1, e =>
    let e := ee_skip_spaces e
    if e.head < e.len ∧ e.error = EERR_NO_ERROR ∧
        (atC e.code e.head = '-' ∨ atC e.code e.head = '+' ∨
         atC e.code e.head = '~' ∨ atC e.code e.head = '!') then
      let op := atC e.code e.head
      let e := ee_unary full fuel { e with head := e.head + 1 }
      if e.error ≠ EERR_NO_ERROR then e
      else
        if op = '-' then { e with ival := wrap64 (-e.ival) }
        else if op = '+' then e
        else if op = '~' then { e with ival := -e.ival - 1 }
        else { e with ival := if e.ival = 0 then 1 else 0 }
    else ee_paren full fuel e

def ee_paren (full : Bool) : Nat → Expreval → Expreval
  | 0, e => e
  | fuel + 1, e =>
    let e := ee_skip_spaces e
    if atC e.code e.head = '(' then
      let e := ee_skip_spaces (ee_expr full fuel { e with head := e.head + 1 })
      if atC e.code e.head = ')' then { e with head := e.head + 1 }
      else { e with error := EERR_SYNTAX_ERROR }
    else ee_element e

end

/-- Run the expression evaluator on a (post-substitution) byte string, as
`lil_eval_expr` does after its substitution step. -/
def ee_run (full : Bool) (fuel : Nat) (code : List Char) : Expreval :=
  ee_expr full fuel { code := code, len := code.length, head := 0, ival := 0, error := 0 }

/-! ## Interpreter state (`struct lil`)

The environment chain `envs` runs from the current environment (head,
`lil->env`) down to the root (last, `lil->rootenv`).  `hostenv` models the
U-Boot environment store behind `env_set`/`env_get` (external to the
sources under verification; modelled from the spec as a string map whose
writes always succeed).  `ctrlcs` models the host interrupt predicate
`ctrlc()` as a stream of poll results (exhausted = no interrupt).
`ghostExec` is ghost instrumentation counting dispatched commands
(`run_cmd`/`unknown_cmd` entries); it is not a field of the C struct and
no modelled code reads it.  The `downenv` field is omitted: only the
`upeval`/`downeval`/`topeval` built-ins of the FULL configuration touch
it.  `dollarpre` models the C field holding the `$`-substitution prefix. -/

inductive LilErr
  | noError | errDefault | fixhead | unbalanced
  deriving DecidableEq, Repr

structure Interp where
  code : Option (List Char) := none
  rootcode : Option (List Char) := none
  clen : Nat := 0
  head : Nat := 0
  ignoreeol : Bool := false
  cmd : List LilFunc := []
  syscmds : Nat := 0
  cmdmap : List (List Char × Nat) := []
  catcher : Option (List Char) := none
  in_catcher : Nat := 0
  dollarpre : List Char := "set ".toList
  envs : List LilEnv := [{}]
  error : LilErr := .noError
  err_head : Nat := 0
  err_msg : List Char := []
  parse_depth : Nat := 0
  hostenv : List (List Char × List Char) := []
  ctrlcs : List Bool := []
  ghostExec : Nat := 0
  deriving DecidableEq, Repr

/-- The current source text as a byte string (a NULL `code` reads as
empty; the C code never reads through a NULL `code` pointer). -/
def Interp.codeS (s : Interp) : List Char := s.code.getD []

/-- Read the current source at an absolute position. -/
def atI (s : Interp) (i : Nat) : Char := atC s.codeS i

/-- The current environment `lil->env`. -/
def curEnv (s : Interp) : LilEnv := s.envs.headD {}

/-- The root environment `lil->rootenv`. -/
def rootEnv (s : Interp) : LilEnv := s.envs.getLastD {}

/-- Replace the current environment. -/
def modifyCur (s : Interp) (f : LilEnv → LilEnv) : Interp :=
  { s with envs := match s.envs with | [] => [] | e :: r => f e :: r }

/-- `ateol`. -/
def ateol (s : Interp) : Bool := !s.ignoreeol && eolchar (atI s s.head)

/-- `lil_set_error`: first error wins; the kind is the `FIXHEAD` sentinel
to be patched by the dispatcher. -/
def lil_set_error (s : Interp) (msg : List Char) : Interp :=
  if s.error ≠ .noError then s
  else { s with error := .fixhead, err_head := 0, err_msg := msg }

/-- `lil_set_error_at` (also standing for `lil_set_errorf_at`, whose only
extra work is the `printf` formatting done here by the caller). -/
def lil_set_error_at (s : Interp) (pos : Nat) (msg : List Char) : Interp :=
  if s.error ≠ .noError then s
  else { s with error := .errDefault, err_head := pos, err_msg := msg }

/-- `lil_set_error_unbalanced`: report `expected X` at the cursor and mark
the error kind unbalanced. -/
def lil_set_error_unbalanced (s : Interp) (expected : Char) : Interp :=
  if s.error ≠ .noError then s
  else
    let s := lil_set_error_at s s.head ("expected ".toList ++ [expected])
    { s with error := .unbalanced }

/-- `lil_error`: report-and-clear.  Returns `(message, position)` when an
error was pending, together with the updated interpreter. -/
def lil_error (s : Interp) : Option (List Char × Nat) × Interp :=
  if s.error = .noError then (none, s)
  else (some (s.err_msg, s.err_head), { s with error := .noError })

/-- Modelled from the spec: the host environment store read
(`env_get(name)`, NULL when unset). -/
def env_get (s : Interp) (name : List Char) : Option (List Char) :=
  hm_get s.hostenv name

/-- Modelled from the spec: the host environment store write
(`env_set(name, val)`); writes succeed (return 0) in the model. -/
def env_set (s : Interp) (name val : List Char) : Interp :=
  { s with hostenv := hm_put s.hostenv name val }

/-- Poll the host interrupt predicate (`ctrlc()`). -/
def ctrlc_poll (s : Interp) : Bool × Interp :=
  match s.ctrlcs with
  | [] => (false, s)
  | b :: r => (b, { s with ctrlcs := r })

/-- The scan of `lil_to_boolean`: anything but `0` and at most one `.`
makes the value true; the walk stops at an embedded NUL like the C
`s[i]` loop. -/
def bool_scan : List Char → Bool → Bool
  | [], _ => false
  | c :: rest, dots =>
    if c = nulChar then false
    else if c ≠ '0' ∧ c ≠ '.' then true
    else if c = '.' then (if dots then true else bool_scan rest true)
    else bool_scan rest dots

/-- `lil_to_boolean`. -/
def lil_to_boolean (v : Option LilValue) : Bool :=
  bool_scan (lil_to_string v) false

/-- Value of a hex digit, if any. -/
def hexDigitVal (c : Char) : Option Nat :=
  if '0' ≤ c ∧ c ≤ '9' then some (c.toNat - 48)
  else if 'a' ≤ c ∧ c ≤ 'f' then some (c.toNat - 87)
  else if 'A' ≤ c ∧ c ≤ 'F' then some (c.toNat - 55)
  else none

/-- Digit-accumulation loop of `simple_strtoul` (unsigned long wraps at
64 bits). -/
def strtoul_loop (base : Nat) : List Char → Nat → Nat
  | [], acc => acc
  | c :: rest, acc =>
    match hexDigitVal c with
    | some d => if d < base then strtoul_loop base rest ((acc * base + d) % 2 ^ 64) else acc
    | none => acc

/-- Modelled from the spec: `simple_strtoul(str, NULL, 0)` of U-Boot's
library (not part of the sources under verification): C-style base
detection from a `0x`/`0` prefix, then digits. -/
def simple_strtoul (s : List Char) : Nat :=
  match s with
  | '0' :: c :: rest =>
    if (c = 'x' ∨ c = 'X') ∧ (hexDigitVal (atC rest 0)).isSome then
      strtoul_loop 16 rest 0
    else strtoul_loop 8 (c :: rest) 0
  | s => strtoul_loop 10 s 0

/-- Modelled from the spec: `simple_strtol`, a sign wrapper over
`simple_strtoul`. -/
def simple_strtol (s : List Char) : Int :=
  match s with
  | '-' :: rest => wrap64 (-(simple_strtoul rest : Int))
  | _ => wrap64 (simple_strtoul s)

/-- `lil_to_integer`. -/
def lil_to_integer (v : Option LilValue) : Int :=
  simple_strtol (lil_to_string v)

/-- `lil_alloc_integer`: decimal rendering (`sprintf("%zd", num)`). -/
def lil_alloc_integer (n : Int) : LilValue := (toString n).toList

/-! ## Tokenizer cursor scans (`lil_skip_spaces` and the word loops)

The C loops advance a cursor over `code`.  Each is written with a
structural step bound (`gas`): every iteration consumes at least one
byte and the loops stop at `clen`, so the `clen + 1` the callers pass
always suffices and the functions compute exactly the C loops. -/

/-- The end-of-line run consumed after a line continuation. -/
def scan_eols (code : List Char) (clen : Nat) : Nat → Nat → Nat
  | 0, head => head
  | gas + 1, head =>
    if head < clen ∧ eolchar (atC code head) then scan_eols code clen gas (head + 1)
    else head

/-- The single-`#` comment scan: consume to the end of the line. -/
def scan_line (code : List Char) (clen : Nat) : Nat → Nat → Nat
  | 0, head => head
  | gas + 1, head =>
    if head < clen ∧ ¬eolchar (atC code head) then scan_line code clen gas (head + 1)
    else head

/-- The `##` multi-line comment scan: consume up to and including the
closing `##` (not followed by another `#`). -/
def scan_ml (code : List Char) (clen : Nat) : Nat → Nat → Nat
  | 0, head => head
  | gas + 1, head =>
    if head < clen then
      if atC code head = '#' ∧ atC code (head + 1) = '#' ∧ atC code (head + 2) ≠ '#' then
        head + 2
      else scan_ml code clen gas (head + 1)
    else head

/-- The bare-word scan: consume to whitespace or a special character. -/
def bareword_end (code : List Char) (clen : Nat) : Nat → Nat → Nat
  | 0, head => head
  | gas + 1, head =>
    if head < clen ∧ ¬isspaceB (atC code head) ∧ ¬islilspecial (atC code head) then
      bareword_end code clen gas (head + 1)
    else head

/-- `lil_skip_spaces` on the raw cursor: the `ieol` flag is the
interpreter's `ignoreeol`. -/
def skip_spaces_pos (code : List Char) (clen : Nat) (ieol : Bool) : Nat → Nat → Nat
  | 0, head => head
  | gas + 1, head =>
    if head < clen then
      if atC code head = '#' then
        if atC code (head + 1) = '#' ∧ atC code (head + 2) ≠ '#' then
          skip_spaces_pos code clen ieol gas (scan_ml code clen (clen + 1) (head + 2))
        else
          skip_spaces_pos code clen ieol gas (scan_line code clen (clen + 1) head)
      else if atC code head = '\\' ∧ eolchar (atC code (head + 1)) then
        skip_spaces_pos code clen ieol gas (scan_eols code clen (clen + 1) (head + 1))
      else if eolchar (atC code head) then
        (if ieol then skip_spaces_pos code clen ieol gas (head + 1) else head)
      else if isspaceB (atC code head) then skip_spaces_pos code clen ieol gas (head + 1)
      else head
    else head

/-- `lil_skip_spaces` on the interpreter. -/
def lil_skip_spaces (s : Interp) : Interp :=
  { s with head := skip_spaces_pos s.codeS s.clen s.ignoreeol (s.clen + 1) s.head }

/-! ## Word extraction (`next_word`, `substitute`)

`$`-substitution and `[...]` substitution re-enter the evaluator
(`get_dollarpart` / `get_bracketpart` call `lil_parse_value`), so the
word extractor is parameterized by the two re-entry functions. -/

structure Handlers where
  dollar : Interp → Option LilValue × Interp
  bracket : Interp → Option LilValue × Interp

/-- The balanced-brace scan shared by the `{...}` word form and (with
the bracket characters) `get_bracketpart`: returns the collected
content, the new cursor, and the remaining nesting count (nonzero means
the scan hit the end of input unbalanced). -/
def braced_scan (op cl : Char) (code : List Char) (clen : Nat) :
    Nat → Nat → Nat → List Char × Nat × Nat
  | 0, head, cnt => ([], head, cnt)
  | gas + 1, head, cnt =>
    if head < clen then
      if atC code head = op then
        let r := braced_scan op cl code clen gas (head + 1) (cnt + 1)
        (op :: r.1, r.2)
      else if atC code head = cl then
        if cnt = 1 then ([], head + 1, 0)
        else
          let r := braced_scan op cl code clen gas (head + 1) (cnt - 1)
          (cl :: r.1, r.2)
      else
        let r := braced_scan op cl code clen gas (head + 1) cnt
        (atC code head :: r.1, r.2)
    else ([], head, cnt)

/-- Escape-sequence processing inside quoted strings. -/
def escapeChar (e : Char) : Char :=
  if e = 'b' then Char.ofNat 8
  else if e = 't' then '\t'
  else if e = 'n' then '\n'
  else if e = 'v' then Char.ofNat 11
  else if e = 'f' then Char.ofNat 12
  else if e = 'r' then '\r'
  else if e = '0' then nulChar
  else if e = 'a' then Char.ofNat 7
  else if e = 'c' then rbrace
  else if e = 'o' then lbrace
  else e

/-- The quoted-string loop of `next_word`: collects bytes until the
closing quote `sc`, processing escapes and embedded `$`/`[`
substitutions.  Returns (matched, collected content, state).  Each
iteration consumes at least one byte (the re-entry points consume at
least their introducing byte), so the `clen + 1` bound suffices. -/
def quote_scan (H : Handlers) (sc : Char) : Nat → Interp → List Char →
    Bool × List Char × Interp
  | 0, s, acc => (false, acc, s)
  | gas + 1, s, acc =>
    if s.head < s.clen then
      if atI s s.head = '[' ∨ atI s s.head = '$' then
        quote_scan H sc gas (if atI s s.head = '$' then H.dollar s else H.bracket s).2
          (acc ++ lil_to_string (if atI s s.head = '$' then H.dollar s else H.bracket s).1)
      else if atI s s.head = '\\' then
        quote_scan H sc gas { s with head := s.head + 2 }
          (acc ++ [escapeChar (atI s (s.head + 1))])
      else if atI s s.head = sc then (true, acc, { s with head := s.head + 1 })
      else quote_scan H sc gas { s with head := s.head + 1 } (acc ++ [atI s s.head])
    else (false, acc, s)

/-- The branch dispatch of `next_word`, after the leading
`lil_skip_spaces` (split out so the branches can be reasoned about per
word form). -/
def next_word_at (H : Handlers) (s : Interp) : LilValue × Interp :=
  if atI s s.head = '$' then
    (lil_to_string (H.dollar s).1, (H.dollar s).2)
  else if atI s s.head = lbrace then
    if (braced_scan lbrace rbrace s.codeS s.clen (s.clen + 1) (s.head + 1) 1).2.2 ≠ 0 then
      ([], lil_set_error_unbalanced
        { s with
            head := (braced_scan lbrace rbrace s.codeS s.clen (s.clen + 1) (s.head + 1) 1).2.1 }
        rbrace)
    else
      ((braced_scan lbrace rbrace s.codeS s.clen (s.clen + 1) (s.head + 1) 1).1,
        { s with
            head := (braced_scan lbrace rbrace s.codeS s.clen (s.clen + 1) (s.head + 1) 1).2.1 })
  else if atI s s.head = '[' then
    (lil_to_string (H.bracket s).1, (H.bracket s).2)
  else if atI s s.head = '"' ∨ atI s s.head = '\'' then
    if (quote_scan H (atI s s.head) (s.clen + 1) { s with head := s.head + 1 } []).1 then
      ((quote_scan H (atI s s.head) (s.clen + 1) { s with head := s.head + 1 } []).2.1,
        (quote_scan H (atI s s.head) (s.clen + 1) { s with head := s.head + 1 } []).2.2)
    else
      ([], lil_set_error_unbalanced
        (quote_scan H (atI s s.head) (s.clen + 1) { s with head := s.head + 1 } []).2.2
        (atI s s.head))
  else
    ((s.codeS.drop s.head).take (bareword_end s.codeS s.clen (s.clen + 1) s.head - s.head),
      { s with head := bareword_end s.codeS s.clen (s.clen + 1) s.head })

/-- `next_word`: skip spaces, then extract one word form.  The C
function ends with `return val ? val : alloc_value(NULL)`, so the
result is never NULL; the branches that produced NULL yield the empty
value. -/
def next_word (H : Handlers) (s0 : Interp) : LilValue × Interp :=
  next_word_at H (lil_skip_spaces s0)

/-- The word-building `do … while` of `substitute`: adjacent word forms
concatenate until whitespace, an end-of-line byte, the end of input, or
an error.  A `next_word` that consumed nothing means the parser cannot
proceed; `substitute` then gives up (C returns NULL), signalled by
`none`. -/
def word_concat (H : Handlers) : Nat → Interp → List Char →
    Option (List Char) × Interp
  | 0, s, _ => (none, s)
  | gas + 1, s, acc =>
    if (next_word H s).2.head = s.head then (none, (next_word H s).2)
    else
      if (next_word H s).2.head < (next_word H s).2.clen ∧
          ¬eolchar (atI (next_word H s).2 (next_word H s).2.head) ∧
          ¬isspaceB (atI (next_word H s).2 (next_word H s).2.head) ∧
          (next_word H s).2.error = .noError then
        word_concat H gas (next_word H s).2 (acc ++ (next_word H s).1)
      else (some (acc ++ (next_word H s).1), (next_word H s).2)

/-- The command-line word loop of `substitute`: extract words until the
end of input, an unescaped end-of-line (unless `ignoreeol`), or an
error.  `none` reports the parser-stuck condition (C returns NULL). -/
def substitute_loop (H : Handlers) : Nat → Interp → List LilValue →
    Option (List LilValue) × Interp
  | 0, s, _ => (none, s)
  | gas + 1, s, words =>
    if s.head < s.clen ∧ ¬ateol s ∧ s.error = .noError then
      match word_concat H (s.clen + 1) s [] with
      | (none, s1) => (none, s1)
      | (some w, s1) => substitute_loop H gas (lil_skip_spaces s1) (words ++ [w])
    else (some words, s)

/-- `substitute`: skip leading space, then extract the words of one
command line. -/
def substitute (H : Handlers) (s : Interp) : Option (List LilValue) × Interp :=
  substitute_loop H (s.clen + 1) (lil_skip_spaces s) []

/-- `lil_subst_to_list`, parameterized by the substitution re-entry
handlers: save the cursor, parse the fragment as a single logical line
(`ignoreeol` on), and restore the cursor.  A parser-stuck NULL from
`substitute` becomes a fresh empty list. -/
def lil_subst_to_list_h (H : Handlers) (s : Interp) (code : Option LilValue) :
    List LilValue × Interp :=
  let s1 : Interp :=
    { s with code := some (lil_to_string code), clen := (lil_to_string code).length,
             head := 0, ignoreeol := true }
  let r := substitute H s1
  (r.1.getD [],
    { r.2 with code := s.code, clen := s.clen, head := s.head, ignoreeol := s.ignoreeol })

/-- `lil_subst_to_value`, parameterized like `lil_subst_to_list_h`:
substitute and re-join the words with single spaces (no escaping). -/
def lil_subst_to_value_h (H : Handlers) (s : Interp) (code : Option LilValue) :
    LilValue × Interp :=
  let r := lil_subst_to_list_h H s code
  (lil_list_to_value r.1 false, r.2)

/-! ## Environment stack, command registry, and small evaluator helpers -/

/-- `lil_push_env`: a fresh environment whose parent is the current one. -/
def lil_push_env (s : Interp) : Interp := { s with envs := {} :: s.envs }

/-- `lil_pop_env`: free the current environment and restore its parent;
the root (no parent) is never popped. -/
def lil_pop_env (s : Interp) : Interp :=
  if 1 < s.envs.length then { s with envs := s.envs.tail } else s

/-- Read a variable's value through its (environment position, index)
location, the model's stand-in for a `lil_var *`. -/
def getVarV (s : Interp) (loc : Nat × Nat) : Option LilValue :=
  (((s.envs.getD loc.1 default).var.getD loc.2 default)).v

/-- Reattach the environment chain after a watch evaluation: the chain
above the watched variable's environment is untouched by the evaluation
(the C pointer `save_env` is restored into `lil->env`), while the chain
from that environment down to the root is whatever the evaluation left,
minus any environments it pushed but failed to pop. -/
def watch_restore (orig : List LilEnv) (p : Nat) (r : List LilEnv) : List LilEnv :=
  orig.take p ++ r.drop (r.length - (orig.length - p))

/-- `lil_get_var_or`: variable read.  For a missing variable or one owned
by the root environment, the host store (`env_get`) is consulted and its
answer — the stored string, or the empty value when the store has no
entry — replaces the result (`lil_alloc_string(env_get(name))` is never
NULL). -/
def lil_get_var_or (s : Interp) (name : List Char) (defvalue : Option LilValue) :
    Option LilValue :=
  let var := lil_find_var s.envs name
  let retval := match var with
    | some loc => getVarV s loc
    | none => defvalue
  if var = none ∨ (∃ loc, var = some loc ∧ loc.1 = s.envs.length - 1) then
    some (lil_to_string ((env_get s name).map id))
  else retval

/-- `lil_get_var` (default is the interpreter's shared empty value). -/
def lil_get_var (s : Interp) (name : List Char) : Option LilValue :=
  lil_get_var_or s name (some [])

/-- `add_func`: re-registration of an existing name (after dotted-prefix
truncation, as `lil_find_cmd` performs it) clears the function's body,
argument list and procedure but keeps its identity (its index);
otherwise a fresh function is appended and indexed.  Returns the
function's index. -/
def add_func (s : Interp) (name : List Char) : Interp × Nat :=
  match (lil_find_cmd s.cmdmap name).1 with
  | some i =>
    ({ s with cmd := s.cmd.set i { (s.cmd.getD i default) with
        argnames := none, code := none, proc := none } }, i)
  | none =>
    ({ s with
        cmd := s.cmd ++ [LilFunc.mk name none none none],
        cmdmap := hm_put s.cmdmap name s.cmd.length },
      s.cmd.length)

/-- `lil_register`. -/
def lil_register (s : Interp) (name : List Char) (p : ProcId) : Interp :=
  let r := add_func s name
  { r.1 with cmd := r.1.cmd.set r.2 { (r.1.cmd.getD r.2 default) with proc := some p } }

/-- Zero-padded decimal rendering (`sprintf("%09u", i)`). -/
def pad9 (i : Nat) : List Char :=
  let d := (toString i).toList
  List.replicate (9 - d.length) '0' ++ d

/-- The candidate-name loop of `lil_unused_name` (the C loop bound of
`(size_t)-1` tries becomes the fuel). -/
def unused_name_loop (s : Interp) (part : List Char) : Nat → Nat → Option LilValue
  | _, 0 => none
  | i, tries + 1 =>
    let name := "!!un!".toList ++ part ++ ['!'] ++ pad9 i ++ "!nu!!".toList
    if (lil_find_cmd s.cmdmap name).1.isSome then unused_name_loop s part (i + 1) tries
    else if (lil_find_var s.envs name).isSome then unused_name_loop s part (i + 1) tries
    else some name

/-- `lil_unused_name`. -/
def lil_unused_name (s : Interp) (part : List Char) (tries : Nat) : Option LilValue :=
  unused_name_loop s part 0 tries

/-- The `while (ateol(lil)) lil->head++` run after each command (the
read past `clen` finds the NUL terminator, which is not an end-of-line
byte, so the run is bounded by the source length). -/
def ateol_skip : Nat → Interp → Interp
  | 0, s => s
  | gas + 1, s =>
    if ateol s then ateol_skip gas { s with head := s.head + 1 } else s

/-- `fnc_return`: set the current frame's unwind flags and return value. -/
def fnc_return (s : Interp) (args : List LilValue) : Interp × Option LilValue :=
  (modifyCur s (fun e =>
     { e with breakrun := true, retval := args.head?, retval_set := true }),
   args.head?)

/-- Modelled from the spec: `strcmp` of the C library (not part of the
sources under verification); only the sign of the result is specified, so
the model returns -1/0/1. -/
def strcmpM : List Char → List Char → Int
  | [], [] => 0
  | [], _ :: _ => -1
  | _ :: _, [] => 1
  | a :: as', b :: bs' =>
    if a = b then strcmpM as' bs'
    else if a < b then -1 else 1

/-- `fnc_strcmp`. -/
def fnc_strcmp (s : Interp) (args : List LilValue) : Interp × Option LilValue :=
  if args.length < 2 then (s, none)
  else (s, some (lil_alloc_integer
    (strcmpM (lil_to_string (args.getD 0 [])) (lil_to_string (args.getD 1 [])))))

/-! ## The evaluator (`lil_parse` and the built-in commands)

All mutually recursive functions carry a fuel argument standing for the
C call stack (and loop iterations); exhausted fuel returns a harmless
cut-off value.  `parse_prologue`/`parse_epilogue` are the entry and
`cleanup:` sections of the C `lil_parse`, split out around the command
loop. -/

inductive SetvarMode
  | sglobal | slocal | localNew | localOnly
  deriving DecidableEq, Repr

/-- Entry section of `lil_parse`: save/assign the cursor (the caller
keeps the saved values), skip leading space, bump the parse depth, reset
the error slot at depth 1, and clear the current frame's `breakrun` for a
function-level parse.  A zero `codelen` means `strlen(code)`. -/
def parse_prologue (s : Interp) (code : List Char) (codelen : Nat) (funclevel : Bool) :
    Interp :=
  let s := if s.code = none then { s with rootcode := some code } else s
  let s := { s with
    code := some code,
    clen := if codelen ≠ 0 then codelen else (code.takeWhile (· ≠ nulChar)).length,
    head := 0 }
  let s := lil_skip_spaces s
  let s := { s with parse_depth := s.parse_depth + 1 }
  let s := if s.parse_depth = 1 then { s with error := .noError } else s
  if funclevel then modifyCur s (fun e => { e with breakrun := false }) else s

/-- The `cleanup:` section of `lil_parse`: restore the saved cursor;
for a function-level parse with `retval_set`, the frame's return value
replaces the loop's value and both unwind flags are cleared; finally the
parse depth drops and a NULL value becomes the empty value
(`return val ? val : alloc_value(NULL)`). -/
def parse_epilogue (save : Option (List Char) × Nat × Nat) (funclevel : Bool)
    (r : Interp × Option LilValue) : Interp × Option LilValue :=
  let s := { r.1 with code := save.1, clen := save.2.1, head := save.2.2 }
  let out :=
    if funclevel ∧ (curEnv s).retval_set = true then
      (modifyCur s (fun e => { e with retval := none, retval_set := false, breakrun := false }),
       (curEnv s).retval)
    else (s, r.2)
  ({ out.1 with parse_depth := out.1.parse_depth - 1 }, some (lil_to_string out.2))

/-- `unknown_cmd` in the base configuration: the catcher branch is
compiled out (`IS_ENABLED(CONFIG_LIL_FULL)` is false), so an unknown
command reports `unknown function NAME` and yields NULL.  The ghost
command counter records the dispatch attempt. -/
def unknown_cmd (s : Interp) (words : List LilValue) : Interp × Option LilValue :=
  let s := { s with ghostExec := s.ghostExec + 1 }
  (lil_set_error_at s s.head ("unknown function ".toList ++ lil_to_string words.head?),
   none)

/-- Update the value stored in a variable (the `var->v` assignment). -/
def setVarValue (s : Interp) (loc : Nat × Nat) (v : Option LilValue) : Interp :=
  { s with envs := (s.envs.set loc.1
      { (s.envs.getD loc.1 default) with
        var := ((s.envs.getD loc.1 default).var.set loc.2
          { ((s.envs.getD loc.1 default).var.getD loc.2 default) with v := v }) }) }

/-- Read a variable record through its location. -/
def varAt (s : Interp) (loc : Nat × Nat) : LilVar :=
  (s.envs.getD loc.1 default).var.getD loc.2 default

/-- Append a fresh variable (no watch) to the environment at `pos`
(the creation tail of `lil_set_var`). -/
def appendVar (s : Interp) (pos : Nat) (name : List Char) (v : Option LilValue) : Interp :=
  { s with envs := (s.envs.set pos
      { (s.envs.getD pos default) with
        var := (s.envs.getD pos default).var ++ [LilVar.mk name none v] }) }

/-- Store a script body and argument names into a registered function
(the `cmd->argnames = …; cmd->code = …` tail of `fnc_func`). -/
def set_func_body (s : Interp) (i : Nat) (argnames : List LilValue) (code : LilValue) :
    Interp :=
  { s with cmd := (s.cmd.set i
      { (s.cmd.getD i default) with argnames := some argnames, code := some code }) }

/-- The balanced-bracket scan of `get_bracketpart` (the C loop matches
the brace scan of `next_word` with `[`/`]`). -/
def bracket_scan_res (s : Interp) : List Char × Nat × Nat :=
  braced_scan '[' ']' s.codeS s.clen (s.clen + 1) (s.head + 1) 1

/-- The unbalanced-bracket exit of `get_bracketpart`: report `expected ]`
at the scan end and restore `ignoreeol`. -/
def bracket_unbalanced (s : Interp) : Option LilValue × Interp :=
  let s1 := lil_set_error_unbalanced
    { s with ignoreeol := false, head := (bracket_scan_res s).2.1 } ']'
  (none, { s1 with ignoreeol := s.ignoreeol })

/-- The cursor state from which `get_bracketpart` evaluates the collected
text: past the closing bracket, with `ignoreeol` off. -/
def bracket_enter (s : Interp) : Interp :=
  { s with ignoreeol := false, head := (bracket_scan_res s).2.1 }

/-- The fuel-exhausted substitution re-entry point (a cut-off value that
still consumes the introducing byte). -/
def bailH (s : Interp) : Option LilValue × Interp := (none, { s with head := s.head + 1 })

mutual

/-- The substitution re-entry points handed to the word extractor. -/
def mkHandlers : Nat → Handlers
  | 0 => ⟨bailH, bailH⟩
  | fuel + 1 => ⟨get_dollarpart fuel, get_bracketpart fuel⟩
  termination_by structural a => a

/-- `get_dollarpart`: consume the `$`, read the following word, prepend
the interpreter's `$`-prefix and evaluate the result as a command. -/
def get_dollarpart : Nat → Interp → Option LilValue × Interp
  | 0, s => bailH s
  | fuel + 1, s =>
    let r := next_word (mkHandlers fuel) { s with head := s.head + 1 }
    let pr := lil_parse_value fuel r.2 (some (s.dollarpre ++ r.1)) false
    (pr.2, pr.1)
  termination_by structural a b => a

/-- `get_bracketpart`: collect the balanced `[...]` text (with
`ignoreeol` forced off, restored afterwards), then evaluate it as a
command; an unbalanced bracket reports `expected ]`. -/
def get_bracketpart : Nat → Interp → Option LilValue × Interp
  | 0, s => bailH s
  | fuel + 1, s =>
    if (bracket_scan_res s).2.2 ≠ 0 then bracket_unbalanced s
    else
      let pr := lil_parse_value fuel (bracket_enter s) (some (bracket_scan_res s).1) false
      (pr.2, { pr.1 with ignoreeol := s.ignoreeol })
  termination_by structural a b => a

/-- `lil_parse`: prologue, command loop, cleanup. -/
def lil_parse : Nat → Interp → List Char → Nat → Bool → Interp × Option LilValue
  | 0, s, _, _, _ => (s, some [])
  | fuel + 1, s, code, codelen, funclevel =>
    parse_epilogue (s.code, s.clen, s.head) funclevel
      (parse_loop fuel (parse_prologue s code codelen funclevel) none)
  termination_by structural a b c d e => a

/-- The command loop of `lil_parse`: while input remains and no error is
pending, poll the interrupt, extract one line of words, dispatch it, and
stop early on `breakrun`. -/
def parse_loop : Nat → Interp → Option LilValue → Interp × Option LilValue
  | 0, s, val => (s, val)
  | fuel + 1, s, val =>
    if s.head < s.clen ∧ s.error = .noError then
      match ctrlc_poll s with
      | (true, s1) => (lil_set_error_at s1 s1.head "interrupted".toList, none)
      | (false, s1) =>
        match substitute (mkHandlers fuel) s1 with
        | (none, s2) => (s2, none)
        | (some words, s2) =>
          if s2.error ≠ .noError then (s2, none)
          else if words.length ≠ 0 then
            match (lil_find_cmd s2.cmdmap (lil_to_string words.head?)).1 with
            | none =>
              if lil_to_string words.head? ≠ [] then
                match unknown_cmd s2 words with
                | (s3, none) => (s3, none)
                | (s3, some v) =>
                  if (curEnv s3).breakrun then (s3, some v)
                  else parse_cont fuel s3 (some v)
              else
                if (curEnv s2).breakrun then (s2, none)
                else parse_cont fuel s2 none
            | some ci =>
              match runcmd fuel s2 ci words with
              | (s3, r) =>
                if (curEnv s3).breakrun then (s3, r)
                else parse_cont fuel s3 r
          else parse_cont fuel s2 none
    else (s, val)
  termination_by structural a b c => a

/-- The end-of-iteration cursor bookkeeping of the command loop
(`lil_skip_spaces; while (ateol) head++; lil_skip_spaces`) followed by
the next iteration. -/
def parse_cont : Nat → Interp → Option LilValue → Interp × Option LilValue
  | 0, s, val => (s, val)
  | fuel + 1, s, val =>
    parse_loop fuel
      (lil_skip_spaces (ateol_skip ((lil_skip_spaces s).codeS.length + 1) (lil_skip_spaces s))) val
  termination_by structural a b c => a

/-- `run_cmd`: dispatch a found command.  A host procedure gets the
arguments after the name and its `FIXHEAD` errors are patched to the
dispatch site; a script function gets a fresh frame, argument binding,
and a function-level parse of its body. -/
def runcmd : Nat → Interp → Nat → List LilValue → Interp × Option LilValue
  | 0, s, _, _ => (s, none)
  | fuel + 1, s, ci, words =>
    let s := { s with ghostExec := s.ghostExec + 1 }
    match (s.cmd.getD ci default).proc with
    | some p =>
      let shead := s.head
      let r := dispatch_proc fuel p s (words.drop 1)
      if r.1.error = .fixhead then
        ({ r.1 with error := .errDefault, err_head := shead }, r.2)
      else r
    | none =>
      let s := modifyCur (lil_push_env s) (fun e => { e with func := some ci })
      let s := bind_args fuel s (s.cmd.getD ci default) words
      let r := lil_parse_value fuel s (s.cmd.getD ci default).code true
      (lil_pop_env r.1, r.2)
  termination_by structural a b c d => a

/-- Argument binding of `run_cmd` for script functions: a sole argument
literally named `args` is bound to the whole word line serialized with
escaping; otherwise the names bind positionally, with the shared empty
value past the caller's last argument. -/
def bind_args : Nat → Interp → LilFunc → List LilValue → Interp
  | 0, s, _, _ => s
  | fuel + 1, s, cmd, words =>
    if (cmd.argnames.getD []).length = 1 ∧
        lil_to_string (cmd.argnames.getD []).head? = "args".toList then
      (lil_set_var fuel s "args".toList (some (lil_list_to_value words true)) .localNew).1
    else
      bind_pos fuel s (cmd.argnames.getD []) 0 words
  termination_by structural a b c d => a

/-- The positional loop of the argument binding. -/
def bind_pos : Nat → Interp → List LilValue → Nat → List LilValue → Interp
  | 0, s, _, _, _ => s
  | fuel + 1, s, names, i, words =>
    match names with
    | [] => s
    | n :: rest =>
      bind_pos fuel
        ((lil_set_var fuel s (lil_to_string (some n))
            (if i < words.length - 1 then some (words.getD (i + 1) []) else some [])
            .localNew).1)
        rest (i + 1) words
  termination_by structural a b c d e => a

/-- Dispatch a built-in host procedure (the base-configuration command
set of `register_stdcmds`). -/
def dispatch_proc : Nat → ProcId → Interp → List LilValue → Interp × Option LilValue
  | 0, _, s, _ => (s, none)
  | fuel + 1, p, s, args =>
    match p with
    | .pdec => fnc_dec fuel s args
    | .peval => fnc_eval fuel s args
    | .pexpr => fnc_expr fuel s args
    | .pfor => fnc_for fuel s args
    | .pforeach => fnc_foreach fuel s args
    | .pfunc => fnc_func fuel s args
    | .pif => fnc_if fuel s args
    | .pinc => fnc_inc fuel s args
    | .plocal => fnc_local fuel s args
    | .preturn => fnc_return s args
    | .pset => fnc_set fuel s args
    | .pstrcmp => fnc_strcmp s args
    | .ptry => fnc_try fuel s args
    | .pwhile => fnc_while fuel s args
  termination_by structural a b c d => a

/-- `lil_parse_value`: a NULL or empty value parses to the empty value
without touching the interpreter. -/
def lil_parse_value : Nat → Interp → Option LilValue → Bool → Interp × Option LilValue
  | 0, s, _, _ => (s, some [])
  | fuel + 1, s, v, funclevel =>
    match v with
    | none => (s, some [])
    | some d => if d = [] then (s, some []) else lil_parse fuel s d d.length funclevel
  termination_by structural a b c d => a

/-- The existing-variable resolution of `lil_set_var`: except under
`LOCAL_NEW`, resolve through `lil_find_var` from the target environment
(current, or root for GLOBAL); a root-owned hit is dropped under
`LOCAL_ONLY` when the target environment is not the root. -/
def set_var_resolve (s : Interp) (name : List Char) (mode : SetvarMode) :
    Option (Nat × Nat) :=
  if mode = .localNew then none
  else
    match (lil_find_var (s.envs.drop (if mode = .sglobal then s.envs.length - 1 else 0))
        name).map
        (fun p => ((if mode = .sglobal then s.envs.length - 1 else 0) + p.1, p.2)) with
    | some loc =>
      if mode = .localOnly ∧ loc.1 = s.envs.length - 1 ∧
          s.envs.length - 1 ≠ (if mode = .sglobal then s.envs.length - 1 else 0) then none
      else some loc
    | none => none

/-- `lil_set_var`: the four assignment modes.  Except under `LOCAL_NEW`,
an existing variable is resolved through `lil_find_var` from the target
environment (current, or root for GLOBAL); a root-owned hit is dropped
under `LOCAL_ONLY` when the target is not the root; rooted writes are
forwarded to the host store; an overwrite fires the variable's watch
with the current environment switched to the owner and, per the source,
at function level (`lil_parse(lil, var->w, 0, 1)`).  Otherwise a fresh
variable is appended to the target environment.  The returned location
stands for the C `lil_var *`. -/
def lil_set_var : Nat → Interp → List Char → Option LilValue → SetvarMode →
    Interp × Option (Nat × Nat)
  | 0, s, _, _, _ => (s, none)
  | fuel + 1, s, name, val, mode =>
    if name = [] then (s, none)
    else
      let len := s.envs.length
      let basePos := if mode = .sglobal then len - 1 else 0
      let found : Option (Nat × Nat) := set_var_resolve s name mode
      let rooted : Bool :=
        match found with
        | some loc => decide (loc.1 = len - 1)
        | none => decide (basePos = len - 1)
      let s := if mode ≠ .localNew ∧ rooted then env_set s name (lil_to_string val) else s
      match found with
      | some loc =>
        let s := setVarValue s loc (lil_clone_value val)
        match (varAt s loc).w with
        | some wcode =>
          let r := lil_parse fuel { s with envs := s.envs.drop loc.1 } wcode 0 true
          ({ r.1 with envs := watch_restore s.envs loc.1 r.1.envs }, some loc)
        | none => (s, some loc)
      | none =>
        (appendVar s basePos name (lil_clone_value val),
         some (basePos, (s.envs.getD basePos default).var.length))
  termination_by structural a b c d e => a

/-- `lil_eval_expr`: poll the interrupt, substitute, handle the empty
expression, run the recursive-descent evaluator, and map its error codes
to the interpreter error slot. -/
def lil_eval_expr : Nat → Bool → Interp → Option LilValue → Interp × Option LilValue
  | 0, _, s, _ => (s, none)
  | fuel + 1, full, s, code =>
    match ctrlc_poll s with
    | (true, s1) => (lil_set_error s1 "interrupted".toList, none)
    | (false, s1) =>
      let r := lil_subst_to_value_h (mkHandlers fuel) s1 code
      if r.2.error ≠ .noError then (r.2, none)
      else if atC r.1 0 = nulChar then (r.2, some (lil_alloc_integer 0))
      else
        let e := ee_expr full fuel
          { code := r.1, len := r.1.length, head := 0, ival := 0, error := 0 }
        if e.error ≠ EERR_NO_ERROR then
          if e.error = EERR_DIVISION_BY_ZERO then
            (lil_set_error r.2 "division by zero in expression".toList, none)
          else if e.error = EERR_SYNTAX_ERROR then
            (lil_set_error r.2 "expression syntax error".toList, none)
          else (r.2, none)
        else (r.2, some (lil_alloc_integer e.ival))
  termination_by structural a b c d => a

/-- `fnc_set` (with the leading `global` keyword). -/
def fnc_set : Nat → Interp → List LilValue → Interp × Option LilValue
  | 0, s, _ => (s, none)
  | fuel + 1, s, args =>
    if args.length = 0 then (s, none)
    else
      fnc_set_loop fuel s args (if lil_to_string args.head? = "global".toList then 1 else 0)
        (if lil_to_string args.head? = "global".toList then SetvarMode.sglobal
         else SetvarMode.slocal) none
  termination_by structural a b c => a

/-- The pair loop of `fnc_set`: a trailing lone name reads the variable,
pairs assign, and the result is the last assigned variable's value. -/
def fnc_set_loop : Nat → Interp → List LilValue → Nat → SetvarMode →
    Option (Nat × Nat) → Interp × Option LilValue
  | 0, s, _, _, _, _ => (s, none)
  | fuel + 1, s, args, i, access, last =>
    if i < args.length then
      if args.length = i + 1 then
        (s, lil_clone_value (lil_get_var s (lil_to_string (some (args.getD i [])))))
      else
        let r := lil_set_var fuel s (lil_to_string (some (args.getD i [])))
          (some (args.getD (i + 1) [])) access
        fnc_set_loop fuel r.1 args (i + 2) access r.2
    else
      (s, match last with
          | some loc => lil_clone_value (getVarV s loc)
          | none => none)
  termination_by structural a b c d e f => a

/-- `fnc_local`. -/
def fnc_local : Nat → Interp → List LilValue → Interp × Option LilValue
  | 0, s, _ => (s, none)
  | fuel + 1, s, args => (fnc_local_loop fuel s args, none)
  termination_by structural a b c => a

def fnc_local_loop : Nat → Interp → List LilValue → Interp
  | 0, s, _ => s
  | fuel + 1, s, args =>
    match args with
    | [] => s
    | a :: rest =>
      fnc_local_loop fuel
        (if (lil_find_local_var (curEnv s).var (lil_to_string (some a))).isSome then s
         else (lil_set_var fuel s (lil_to_string (some a)) (some []) .localNew).1)
        rest
  termination_by structural a b c => a

/-- `fnc_eval`: evaluate one value, or the space-joined concatenation of
several. -/
def fnc_eval : Nat → Interp → List LilValue → Interp × Option LilValue
  | 0, s, _ => (s, none)
  | fuel + 1, s, args =>
    if args.length = 1 then lil_parse_value fuel s (some (args.getD 0 [])) false
    else if args.length > 1 then
      lil_parse_value fuel s (some (lil_list_to_value args false)) false
    else (s, none)
  termination_by structural a b c => a

/-- `fnc_expr` (the base configuration passes `full = false` for the
expression evaluator's compiled-out levels). -/
def fnc_expr : Nat → Interp → List LilValue → Interp × Option LilValue
  | 0, s, _ => (s, none)
  | fuel + 1, s, args =>
    if args.length = 1 then lil_eval_expr fuel false s (some (args.getD 0 []))
    else if args.length > 1 then
      lil_eval_expr fuel false s (some (lil_list_to_value args false))
    else (s, none)
  termination_by structural a b c => a

/-- `fnc_if` (optional leading `not`). -/
def fnc_if : Nat → Interp → List LilValue → Interp × Option LilValue
  | 0, s, _ => (s, none)
  | fuel + 1, s, args =>
    if args.length < 1 then (s, none)
    else if args.length < (if lil_to_string args.head? = "not".toList then 1 else 0) + 2 then
      (s, none)
    else
      let notFlag := lil_to_string args.head? = "not".toList
      let base := if notFlag then 1 else 0
      match lil_eval_expr fuel false s (some (args.getD base [])) with
      | (s1, none) => (s1, none)
      | (s1, some val) =>
        if s1.error ≠ .noError then (s1, none)
        else
          let v := if notFlag then !lil_to_boolean (some val) else lil_to_boolean (some val)
          if v then lil_parse_value fuel s1 (some (args.getD (base + 1) [])) false
          else if args.length > base + 2 then
            lil_parse_value fuel s1 (some (args.getD (base + 2) [])) false
          else (s1, none)
  termination_by structural a b c => a

/-- `fnc_while` (optional leading `not`). -/
def fnc_while : Nat → Interp → List LilValue → Interp × Option LilValue
  | 0, s, _ => (s, none)
  | fuel + 1, s, args =>
    if args.length < 1 then (s, none)
    else if args.length < (if lil_to_string args.head? = "not".toList then 1 else 0) + 2 then
      (s, none)
    else
      fnc_while_loop fuel s args
        (if lil_to_string args.head? = "not".toList then 1 else 0)
        (lil_to_string args.head? = "not".toList) none
  termination_by structural a b c => a

def fnc_while_loop : Nat → Interp → List LilValue → Nat → Bool → Option LilValue →
    Interp × Option LilValue
  | 0, s, _, _, _, r => (s, r)
  | fuel + 1, s, args, base, notFlag, r =>
    if s.error = .noError ∧ (curEnv s).breakrun = false then
      match lil_eval_expr fuel false s (some (args.getD base [])) with
      | (s1, none) => (s1, none)
      | (s1, some val) =>
        if s1.error ≠ .noError then (s1, none)
        else if !(if notFlag then !lil_to_boolean (some val) else lil_to_boolean (some val)) then
          (s1, r)
        else
          let pr := lil_parse_value fuel s1 (some (args.getD (base + 1) [])) false
          fnc_while_loop fuel pr.1 args base notFlag pr.2
    else (s, r)
  termination_by structural a b c d e f => a

/-- `fnc_for`: `for {init} {cond} {step} {body}`. -/
def fnc_for : Nat → Interp → List LilValue → Interp × Option LilValue
  | 0, s, _ => (s, none)
  | fuel + 1, s, args =>
    if args.length < 4 then (s, none)
    else
      fnc_for_loop fuel (lil_parse_value fuel s (some (args.getD 0 [])) false).1 args none
  termination_by structural a b c => a

def fnc_for_loop : Nat → Interp → List LilValue → Option LilValue →
    Interp × Option LilValue
  | 0, s, _, r => (s, r)
  | fuel + 1, s, args, r =>
    if s.error = .noError ∧ (curEnv s).breakrun = false then
      match lil_eval_expr fuel false s (some (args.getD 1 [])) with
      | (s1, none) => (s1, none)
      | (s1, some val) =>
        if s1.error ≠ .noError then (s1, none)
        else if !lil_to_boolean (some val) then (s1, r)
        else
          let pr := lil_parse_value fuel s1 (some (args.getD 3 [])) false
          fnc_for_loop fuel (lil_parse_value fuel pr.1 (some (args.getD 2 [])) false).1
            args pr.2
    else (s, r)
  termination_by structural a b c d => a

/-- `fnc_foreach`: iterate a substituted list, collecting nonempty body
results into a list serialized with escaping. -/
def fnc_foreach : Nat → Interp → List LilValue → Interp × Option LilValue
  | 0, s, _ => (s, none)
  | fuel + 1, s, args =>
    if args.length < 2 then (s, none)
    else
      let varname := if args.length ≥ 3 then lil_to_string args.head? else "i".toList
      let listidx := if args.length ≥ 3 then 1 else 0
      let codeidx := if args.length ≥ 3 then 2 else 1
      let r := lil_subst_to_list_h (mkHandlers fuel) s (some (args.getD listidx []))
      let lo := fnc_foreach_loop fuel r.2 varname (args.getD codeidx []) r.1 []
      (lo.1, some (lil_list_to_value lo.2 true))
  termination_by structural a b c => a

def fnc_foreach_loop : Nat → Interp → List Char → LilValue → List LilValue →
    List LilValue → Interp × List LilValue
  | 0, s, _, _, _, rlist => (s, rlist)
  | fuel + 1, s, varname, code, items, rlist =>
    match items with
    | [] => (s, rlist)
    | it :: rest =>
      let s := (lil_set_var fuel s varname (some it) .localOnly).1
      let pv := lil_parse_value fuel s (some code) false
      let rlist := if lil_to_string pv.2 ≠ [] then rlist ++ [lil_to_string pv.2] else rlist
      if (curEnv pv.1).breakrun ∨ pv.1.error ≠ .noError then (pv.1, rlist)
      else fnc_foreach_loop fuel pv.1 varname code rest rlist
  termination_by structural a b c d e f => a

/-- `fnc_func`: the three-argument form names the function; the one- and
two-argument forms draw an anonymous name from `lil_unused_name` (the
one-argument form defaults the argument list to `args`). -/
def fnc_func : Nat → Interp → List LilValue → Interp × Option LilValue
  | 0, s, _ => (s, none)
  | fuel + 1, s, args =>
    if args.length < 1 then (s, none)
    else if args.length ≥ 3 then
      let fr := lil_subst_to_list_h (mkHandlers fuel) s (some (args.getD 1 []))
      let ar := add_func fr.2 (lil_to_string (some (args.getD 0 [])))
      (set_func_body ar.1 ar.2 fr.1 (args.getD 2 []), some (args.getD 0 []))
    else if args.length < 2 then
      let nameO := lil_unused_name s "anonymous-function".toList (2 ^ 64 - 1)
      let fr := lil_subst_to_list_h (mkHandlers fuel) s (some "args".toList)
      let ar := add_func fr.2 (lil_to_string nameO)
      (set_func_body ar.1 ar.2 fr.1 (args.getD 0 []), nameO)
    else
      let nameO := lil_unused_name s "anonymous-function".toList (2 ^ 64 - 1)
      let fr := lil_subst_to_list_h (mkHandlers fuel) s (some (args.getD 0 []))
      let ar := add_func fr.2 (lil_to_string nameO)
      (set_func_body ar.1 ar.2 fr.1 (args.getD 1 []), nameO)
  termination_by structural a b c => a

/-- `real_inc`: read, add (with 64-bit wrap), store locally, return the
new value. -/
def real_inc : Nat → Interp → List Char → Int → Interp × Option LilValue
  | 0, s, _, _ => (s, none)
  | fuel + 1, s, varname, v =>
    let pv := lil_alloc_integer (wrap64 (lil_to_integer (lil_get_var s varname) + v))
    ((lil_set_var fuel s varname (some pv) .slocal).1, some pv)
  termination_by structural a b c d => a

def fnc_inc : Nat → Interp → List LilValue → Interp × Option LilValue
  | 0, s, _ => (s, none)
  | fuel + 1, s, args =>
    if args.length < 1 then (s, none)
    else real_inc fuel s (lil_to_string args.head?)
      (if args.length > 1 then lil_to_integer (some (args.getD 1 [])) else 1)
  termination_by structural a b c => a

def fnc_dec : Nat → Interp → List LilValue → Interp × Option LilValue
  | 0, s, _ => (s, none)
  | fuel + 1, s, args =>
    if args.length < 1 then (s, none)
    else real_inc fuel s (lil_to_string args.head?)
      (-(if args.length > 1 then lil_to_integer (some (args.getD 1 [])) else 1))
  termination_by structural a b c => a

/-- `fnc_try`: evaluate the body unless an error is already pending; an
error from the body is cleared, and the recovery fragment (if any) runs
from the cleared state. -/
def fnc_try : Nat → Interp → List LilValue → Interp × Option LilValue
  | 0, s, _ => (s, none)
  | fuel + 1, s, args =>
    if args.length < 1 then (s, none)
    else if s.error ≠ .noError then (s, none)
    else
      let r := lil_parse_value fuel s (some (args.getD 0 [])) false
      if r.1.error ≠ .noError then
        if args.length > 1 then
          lil_parse_value fuel { r.1 with error := .noError } (some (args.getD 1 [])) false
        else ({ r.1 with error := .noError }, none)
      else r
  termination_by structural a b c => a

end

/-- `register_stdcmds` in the base configuration: the fourteen standard
commands (the FULL-only block is compiled out), then the system-command
count snapshot. -/
def register_stdcmds (s : Interp) : Interp :=
  let s := lil_register s "dec".toList .pdec
  let s := lil_register s "eval".toList .peval
  let s := lil_register s "expr".toList .pexpr
  let s := lil_register s "for".toList .pfor
  let s := lil_register s "foreach".toList .pforeach
  let s := lil_register s "func".toList .pfunc
  let s := lil_register s "if".toList .pif
  let s := lil_register s "inc".toList .pinc
  let s := lil_register s "local".toList .plocal
  let s := lil_register s "return".toList .preturn
  let s := lil_register s "set".toList .pset
  let s := lil_register s "strcmp".toList .pstrcmp
  let s := lil_register s "try".toList .ptry
  let s := lil_register s "while".toList .pwhile
  { s with syscmds := s.cmd.length }

/-- `lil_new`: a fresh interpreter — root environment, the shared empty
value, the default `$`-prefix, and the standard commands. -/
def lil_new : Interp := register_stdcmds {}

/-- The assignment routine as the spec words it (for the C6 refinement
comparison only; not translated from the source): identical to
`lil_set_var` except that the watch program is evaluated as a
*non-function* fragment — `lil_parse(lil, var->w, 0, 0)` — where the
source passes funclevel 1. -/
def lil_set_var_spec : Nat → Interp → List Char → Option LilValue → SetvarMode →
    Interp × Option (Nat × Nat)
  | 0, s, _, _, _ => (s, none)
  | fuel + 1, s, name, val, mode =>
    if name = [] then (s, none)
    else
      let len := s.envs.length
      let basePos := if mode = .sglobal then len - 1 else 0
      let found : Option (Nat × Nat) := set_var_resolve s name mode
      let rooted : Bool :=
        match found with
        | some loc => decide (loc.1 = len - 1)
        | none => decide (basePos = len - 1)
      let s := if mode ≠ .localNew ∧ rooted then env_set s name (lil_to_string val) else s
      match found with
      | some loc =>
        let s := setVarValue s loc (lil_clone_value val)
        match (varAt s loc).w with
        | some wcode =>
          let r := lil_parse fuel { s with envs := s.envs.drop loc.1 } wcode 0 false
          ({ r.1 with envs := watch_restore s.envs loc.1 r.1.envs }, some loc)
        | none => (s, some loc)
      | none =>
        (appendVar s basePos name (lil_clone_value val),
         some (basePos, (s.envs.getD basePos default).var.length))

/-- A brace byte (the characters the escaping loop of
`lil_list_to_value` treats specially). -/
def isbrace (c : Char) : Bool := c = lbrace || c = rbrace

/-- Number of brace bytes in a string (the number of smuggling sequences
its escaped form contains). -/
def braceCount (w : List Char) : Nat := (w.filter isbrace).length

/-- The quote letter a brace byte is smuggled through (`o` reopens `{`,
`c` recloses `}`). -/
def escX (b : Char) : Char := if b = lbrace then 'o' else 'c'

/-- The smuggling sequence emitted for a brace byte. -/
def escSeq (b : Char) : List Char := if b = lbrace then escOpenSeq else escCloseSeq

/-! ## Theorems for the claims -/

/-- C4: two-level variable lookup.  `lil_find_var` starting at environment
`e` (with `rest` the chain of parents down to the root) returns a variable
owned by `e` itself when one matches; with no local match and `e` the root
(`rest = []`) it returns nothing; with no local match and `e` not the root
it falls through directly to the root environment (`rest.getLast`), so in
particular a binding held only by an intermediate parent environment is
never returned. -/
theorem lil_find_var_two_level (e : LilEnv) (rest : List LilEnv) (name : List Char) :
    (∀ vi, lil_find_local_var e.var name = some vi →
        lil_find_var (e :: rest) name = some (0, vi)) ∧
    (lil_find_local_var e.var name = none → rest = [] →
        lil_find_var (e :: rest) name = none) ∧
    (lil_find_local_var e.var name = none → ∀ h : rest ≠ [],
        lil_find_var (e :: rest) name =
          (lil_find_local_var (rest.getLast h).var name).map
            (fun vi => (rest.length, vi))) ∧
    (lil_find_local_var e.var name = none → ∀ h : rest ≠ [],
        lil_find_local_var (rest.getLast h).var name = none →
        lil_find_var (e :: rest) name = none) := by
  refine ⟨?_, ?_, ?_, ?_⟩
  · intro vi h
    simp [lil_find_var, h]
  · intro h h2
    subst h2
    simp [lil_find_var, h]
  · intro h hne
    cases rest with
    | nil => exact absurd rfl hne
    | cons b bs =>
      simp only [lil_find_var, h]
      rw [List.getLast_cons]
  · intro h hne hroot
    cases rest with
    | nil => exact absurd rfl hne
    | cons b bs =>
      simp only [lil_find_var, h]
      rw [List.getLast_cons, hroot]
      rfl

theorem lil_find_var_two_level_witness :
    (lil_find_local_var ({} : LilEnv).var "x".toList = none ∧
     lil_find_local_var ([LilEnv.mk none none [LilVar.mk "x".toList none (some "mid".toList)] none false false, ({} : LilEnv)].getLast (by decide)).var "x".toList = none ∧
     lil_find_var [({} : LilEnv), LilEnv.mk none none [LilVar.mk "x".toList none (some "mid".toList)] none false false, ({} : LilEnv)] "x".toList = none) ∧
    (lil_find_local_var (LilEnv.mk none none [LilVar.mk "x".toList none (some "mid".toList)] none false false).var "x".toList = some 0 ∧
     lil_find_var [LilEnv.mk none none [LilVar.mk "x".toList none (some "mid".toList)] none false false, ({} : LilEnv)] "x".toList = some (0, 0)) :=
  ⟨⟨by decide, by decide,
    (lil_find_var_two_level {} [LilEnv.mk none none [LilVar.mk "x".toList none (some "mid".toList)] none false false, {}] "x".toList).2.2.2
      (by decide) (by decide) (by decide)⟩,
   ⟨by decide,
    (lil_find_var_two_level (LilEnv.mk none none [LilVar.mk "x".toList none (some "mid".toList)] none false false) [{}] "x".toList).1
      0 (by decide)⟩⟩

/-- `strchr(name, '.')` on a name whose first dot separates `pre` from
`post` splits exactly there. -/
theorem splitFirstDot_append (pre post : List Char) (h : '.' ∉ pre) :
    splitFirstDot (pre ++ '.' :: post) = some (pre, post) := by
  induction pre with
  | nil => simp [splitFirstDot]
  | cons c cs ih =>
    have hc : c ≠ '.' := fun hh => h (hh ▸ List.mem_cons_self c cs)
    simp only [List.cons_append, splitFirstDot, if_neg hc, List.append_eq,
      ih (fun hm => h (List.mem_cons_of_mem c hm))]
    rfl

/-- C9: dotted command lookup.  For a name `pre.post` (first dot after
`pre`), `lil_find_cmd` looks up exactly the prefix `pre` — the remainder
plays no part — and the name buffer it leaves behind is the unchanged
original name (the dot overwritten by the C code is written back). -/
theorem lil_find_cmd_dotted (m : List (List Char × Nat)) (pre post : List Char)
    (h : '.' ∉ pre) :
    (lil_find_cmd m (pre ++ '.' :: post)).1 = hm_get m pre ∧
    (lil_find_cmd m (pre ++ '.' :: post)).2 = pre ++ '.' :: post := by
  unfold lil_find_cmd
  rw [splitFirstDot_append pre post h]
  exact ⟨rfl, rfl⟩

theorem lil_find_cmd_dotted_witness :
    ('.' ∉ "net".toList) ∧
    ((lil_find_cmd [("net".toList, 3)] ("net".toList ++ '.' :: "info".toList)).1 =
       hm_get [("net".toList, 3)] "net".toList ∧
     (lil_find_cmd [("net".toList, 3)] ("net".toList ++ '.' :: "info".toList)).2 =
       "net".toList ++ '.' :: "info".toList) :=
  ⟨by decide, lil_find_cmd_dotted [("net".toList, 3)] "net".toList "info".toList (by decide)⟩

/-- The `cleanup:` section always produces a value
(`return val ? val : alloc_value(NULL)`). -/
theorem parse_epilogue_isSome (save : Option (List Char) × Nat × Nat) (fl : Bool)
    (r : Interp × Option LilValue) : ((parse_epilogue save fl r).2).isSome = true := by
  simp [parse_epilogue]

/-- C10: `lil_parse` never returns NULL.  For every fuel, interpreter
state, source text and function level, both `lil_parse` and
`lil_parse_value` return a present (possibly empty) value, even when an
error was set mid-way. -/
theorem lil_parse_never_null (fuel : Nat) (s : Interp) (code : List Char)
    (codelen : Nat) (v : Option LilValue) (funclevel : Bool) :
    ((lil_parse fuel s code codelen funclevel).2).isSome = true ∧
    ((lil_parse_value fuel s v funclevel).2).isSome = true := by
  constructor
  · cases fuel with
    | zero => rfl
    | succ n => exact parse_epilogue_isSome _ _ _
  · cases fuel with
    | zero => rfl
    | succ n =>
      cases v with
      | none => rfl
      | some d =>
        by_cases hd : d = []
        · simp [lil_parse_value, hd]
        · simp only [lil_parse_value, if_neg hd]
          cases n with
          | zero => rfl
          | succ m => exact parse_epilogue_isSome _ _ _

/-- C8: operator precedence of the expression evaluator (the full
configuration, where all operator levels are compiled in): `1 + 2 * 3`
evaluates to 7, and `1 + 2 * 3 == 7`, `~(2*3)+1 == -6` and
`1 || 0 && 0 == 1` each evaluate to 1. -/
theorem eval_expr_precedence :
    ((lil_eval_expr 50 true lil_new (some "1 + 2 * 3".toList)).2 = some "7".toList) ∧
    ((lil_eval_expr 50 true lil_new (some "1 + 2 * 3 == 7".toList)).2 = some "1".toList) ∧
    ((lil_eval_expr 50 true lil_new (some "~(2*3)+1 == -6".toList)).2 = some "1".toList) ∧
    ((lil_eval_expr 50 true lil_new (some "1 || 0 && 0 == 1".toList)).2 = some "1".toList) :=
  ⟨by decide, by decide, by decide, by decide⟩

/-- C7: division by zero.  The `/` and `\` operator arms compute the
same function (C truncated 64-bit division); a zero right operand makes
every division/modulo arm fail; whenever the recursive-descent run over
the substituted expression ends with `EERR_DIVISION_BY_ZERO`,
`lil_eval_expr` returns no value and sets the error slot to
`division by zero in expression`; and the concrete runs `7/0`, `7\0`,
`7%0` error out that way while `14/4` and `14\4` agree on `3`. -/
theorem eval_expr_division_by_zero (fuel : Nat) (full : Bool) (s : Interp)
    (code : Option LilValue) :
    (∀ o i : Int, ee_div_slash o i = ee_div_backslash o i) ∧
    (∀ o : Int, ee_div_slash o 0 = none ∧ ee_div_backslash o 0 = none ∧
       ee_div_mod o 0 = none) ∧
    (s.ctrlcs = [] →
     (lil_subst_to_value_h (mkHandlers fuel) s code).2.error = .noError →
     atC (lil_subst_to_value_h (mkHandlers fuel) s code).1 0 ≠ nulChar →
     (ee_expr full fuel
        (Expreval.mk (lil_subst_to_value_h (mkHandlers fuel) s code).1
          (lil_subst_to_value_h (mkHandlers fuel) s code).1.length 0 0 0)).error =
       EERR_DIVISION_BY_ZERO →
     lil_eval_expr (fuel + 1) full s code =
       (lil_set_error (lil_subst_to_value_h (mkHandlers fuel) s code).2
          "division by zero in expression".toList, none)) ∧
    ((lil_eval_expr 50 true lil_new (some "7/0".toList)).2 = none ∧
     (lil_eval_expr 50 true lil_new (some "7/0".toList)).1.err_msg =
       "division by zero in expression".toList ∧
     (lil_eval_expr 50 true lil_new (some "7\\0".toList)).2 = none ∧
     (lil_eval_expr 50 true lil_new (some "7\\0".toList)).1.err_msg =
       "division by zero in expression".toList ∧
     (lil_eval_expr 50 true lil_new (some "7%0".toList)).2 = none ∧
     (lil_eval_expr 50 true lil_new (some "7%0".toList)).1.err_msg =
       "division by zero in expression".toList ∧
     (lil_eval_expr 50 true lil_new (some "14/4".toList)).2 = some "3".toList ∧
     (lil_eval_expr 50 true lil_new (some "14\\4".toList)).2 = some "3".toList) := by
  refine ⟨fun o i => rfl, fun o => ⟨rfl, rfl, rfl⟩, ?_, ?_⟩
  · intro h1 h2 h3 h4
    have hp : ctrlc_poll s = (false, s) := by simp [ctrlc_poll, h1]
    simp only [lil_eval_expr, hp]
    simp only [h2, h4, ne_eq, not_true_eq_false, if_false, EERR_DIVISION_BY_ZERO,
      EERR_NO_ERROR, if_neg h3]
    simp
  · exact ⟨by decide, by decide, by decide, by decide, by decide, by decide,
      by decide, by decide⟩

theorem eval_expr_division_by_zero_witness :
    lil_new.ctrlcs = [] ∧
    (lil_subst_to_value_h (mkHandlers 49) lil_new (some "7/0".toList)).2.error = .noError ∧
    atC (lil_subst_to_value_h (mkHandlers 49) lil_new (some "7/0".toList)).1 0 ≠ nulChar ∧
    (ee_expr true 49
       (Expreval.mk (lil_subst_to_value_h (mkHandlers 49) lil_new (some "7/0".toList)).1
         (lil_subst_to_value_h (mkHandlers 49) lil_new (some "7/0".toList)).1.length
         0 0 0)).error = EERR_DIVISION_BY_ZERO ∧
    lil_eval_expr 50 true lil_new (some "7/0".toList) =
      (lil_set_error (lil_subst_to_value_h (mkHandlers 49) lil_new (some "7/0".toList)).2
         "division by zero in expression".toList, none) :=
  ⟨by decide, by decide, by decide, by decide,
   (eval_expr_division_by_zero 49 true lil_new (some "7/0".toList)).2.2.1
     (by decide) (by decide) (by decide) (by decide)⟩

/-- A nested parse entry (`parse_depth` already positive) leaves the
error slot and the ghost command counter untouched: the depth-1 reset is
not taken. -/
theorem parse_prologue_keeps_error (s : Interp) (code : List Char) (codelen : Nat)
    (fl : Bool) (h : 1 ≤ s.parse_depth) :
    (parse_prologue s code codelen fl).error = s.error ∧
    (parse_prologue s code codelen fl).err_msg = s.err_msg ∧
    (parse_prologue s code codelen fl).err_head = s.err_head ∧
    (parse_prologue s code codelen fl).ghostExec = s.ghostExec := by
  have h1 : ¬ (s.parse_depth + 1 = 1) := by omega
  unfold parse_prologue lil_skip_spaces modifyCur
  cases hc : s.code <;> cases fl <;> simp [h1]

/-- The command loop on a state with a pending error runs nothing. -/
theorem parse_loop_pending_error (fuel : Nat) (s : Interp) (val : Option LilValue)
    (h : s.error ≠ .noError) : parse_loop fuel s val = (s, val) := by
  cases fuel with
  | zero => rfl
  | succ n =>
    simp only [parse_loop]
    exact if_neg (fun hc => h hc.2)

/-- The `cleanup:` section never touches the error slot or the ghost
command counter. -/
theorem parse_epilogue_keeps_error (save : Option (List Char) × Nat × Nat) (fl : Bool)
    (r : Interp × Option LilValue) :
    (parse_epilogue save fl r).1.error = r.1.error ∧
    (parse_epilogue save fl r).1.err_msg = r.1.err_msg ∧
    (parse_epilogue save fl r).1.err_head = r.1.err_head ∧
    (parse_epilogue save fl r).1.ghostExec = r.1.ghostExec := by
  unfold parse_epilogue modifyCur curEnv
  cases hfl : fl <;> first
    | (simp; split <;> simp)
    | simp

/-- C1: the error slot latches the first error.  Once set: every later
call to the error setters is the identity; a (nested) `lil_parse` over
any source executes no command (ghost counter unchanged) and preserves
the slot's kind, message and position; `lil_error` returns exactly the
stored message and position and resets the slot; and the `try` built-in
clears an error raised by its body, yielding NULL. -/
theorem error_slot_first_error_wins :
    (∀ (s : Interp) (msg : List Char) (pos : Nat) (c : Char), s.error ≠ .noError →
       lil_set_error s msg = s ∧ lil_set_error_at s pos msg = s ∧
       lil_set_error_unbalanced s c = s) ∧
    (∀ (fuel : Nat) (s : Interp) (code : List Char) (codelen : Nat) (fl : Bool),
       s.error ≠ .noError → 1 ≤ s.parse_depth →
       (lil_parse fuel s code codelen fl).1.error = s.error ∧
       (lil_parse fuel s code codelen fl).1.err_msg = s.err_msg ∧
       (lil_parse fuel s code codelen fl).1.err_head = s.err_head ∧
       (lil_parse fuel s code codelen fl).1.ghostExec = s.ghostExec) ∧
    (∀ s : Interp, s.error ≠ .noError →
       lil_error s = (some (s.err_msg, s.err_head), { s with error := .noError })) ∧
    (∀ (fuel : Nat) (s : Interp) (body : LilValue),
       s.error = .noError →
       ((lil_parse_value fuel s (some body) false).1).error ≠ .noError →
       (fnc_try (fuel + 1) s [body]).1.error = .noError ∧
       (fnc_try (fuel + 1) s [body]).2 = none) := by
  refine ⟨?_, ?_, ?_, ?_⟩
  · intro s msg pos c h
    exact ⟨by simp [lil_set_error, h], by simp [lil_set_error_at, h],
      by simp [lil_set_error_unbalanced, h]⟩
  · intro fuel s code codelen fl h hd
    cases fuel with
    | zero => exact ⟨rfl, rfl, rfl, rfl⟩
    | succ n =>
      have hp := parse_prologue_keeps_error s code codelen fl hd
      have hloop := parse_loop_pending_error n (parse_prologue s code codelen fl) none
        (by rw [hp.1]; exact h)
      have he := parse_epilogue_keeps_error (s.code, s.clen, s.head) fl
        (parse_prologue s code codelen fl, none)
      simp only [lil_parse, hloop]
      exact ⟨he.1.trans hp.1, he.2.1.trans hp.2.1, he.2.2.1.trans hp.2.2.1,
        he.2.2.2.trans hp.2.2.2⟩
  · intro s h
    simp [lil_error, h]
  · intro fuel s body h1 h2
    simp only [fnc_try, List.length_cons, List.length_nil]
    rw [if_neg (by omega), if_neg (by simp [h1])]
    simp only [List.getD, List.getD_cons_zero] at *
    rw [if_pos (by simpa using h2)]
    rw [if_neg (by omega)]
    exact ⟨rfl, rfl⟩

theorem error_slot_first_error_wins_witness :
    (({ lil_new with error := .errDefault, err_msg := "E".toList, err_head := 2, parse_depth := 1 } : Interp).error ≠ .noError ∧
     1 ≤ ({ lil_new with error := .errDefault, err_msg := "E".toList, err_head := 2, parse_depth := 1 } : Interp).parse_depth ∧
     lil_new.error = .noError ∧
     ((lil_parse_value 9 lil_new (some "boom".toList) false).1).error ≠ .noError) ∧
    (lil_set_error { lil_new with error := .errDefault, err_msg := "E".toList, err_head := 2, parse_depth := 1 } "x".toList = { lil_new with error := .errDefault, err_msg := "E".toList, err_head := 2, parse_depth := 1 } ∧
     lil_set_error_at { lil_new with error := .errDefault, err_msg := "E".toList, err_head := 2, parse_depth := 1 } 5 "x".toList = { lil_new with error := .errDefault, err_msg := "E".toList, err_head := 2, parse_depth := 1 } ∧
     lil_set_error_unbalanced { lil_new with error := .errDefault, err_msg := "E".toList, err_head := 2, parse_depth := 1 } ']' = { lil_new with error := .errDefault, err_msg := "E".toList, err_head := 2, parse_depth := 1 }) ∧
    ((lil_parse 5 { lil_new with error := .errDefault, err_msg := "E".toList, err_head := 2, parse_depth := 1 } "set a 1".toList 0 false).1.ghostExec = ({ lil_new with error := .errDefault, err_msg := "E".toList, err_head := 2, parse_depth := 1 } : Interp).ghostExec ∧
     (lil_parse 5 { lil_new with error := .errDefault, err_msg := "E".toList, err_head := 2, parse_depth := 1 } "set a 1".toList 0 false).1.error = ({ lil_new with error := .errDefault, err_msg := "E".toList, err_head := 2, parse_depth := 1 } : Interp).error) ∧
    lil_error { lil_new with error := .errDefault, err_msg := "E".toList, err_head := 2, parse_depth := 1 } =
      (some ("E".toList, 2), { lil_new with err_msg := "E".toList, err_head := 2, parse_depth := 1, error := .noError }) ∧
    ((fnc_try 10 lil_new ["boom".toList]).1.error = .noError ∧
     (fnc_try 10 lil_new ["boom".toList]).2 = none) :=
  ⟨⟨by decide, by decide, by decide, by decide⟩,
   (error_slot_first_error_wins.1 { lil_new with error := .errDefault, err_msg := "E".toList, err_head := 2, parse_depth := 1 } "x".toList 5 ']' (by decide)),
   ⟨((error_slot_first_error_wins.2.1 5 { lil_new with error := .errDefault, err_msg := "E".toList, err_head := 2, parse_depth := 1 } "set a 1".toList 0 false (by decide) (by decide)).2.2.2),
    ((error_slot_first_error_wins.2.1 5 { lil_new with error := .errDefault, err_msg := "E".toList, err_head := 2, parse_depth := 1 } "set a 1".toList 0 false (by decide) (by decide)).1)⟩,
   (error_slot_first_error_wins.2.2.1 { lil_new with error := .errDefault, err_msg := "E".toList, err_head := 2, parse_depth := 1 } (by decide)),
   (error_slot_first_error_wins.2.2.2 9 lil_new "boom".toList (by decide) (by decide))⟩

/-- C5 counterexample: invoking a script function `f` whose declared
argument list is exactly the single name `args` with the word line
`f x` binds `args` to the serialization of the whole word line including
the command name (`f x`), not to the serialization of the caller
argument list alone (`x`) as the claim states. -/
theorem bind_args_includes_command_name :
    lil_get_var
      (bind_args 10
        (modifyCur (lil_push_env (set_func_body (add_func lil_new "f".toList).1 (add_func lil_new "f".toList).2 ["args".toList] "ret".toList))
          (fun e => { e with func := some (add_func lil_new "f".toList).2 }))
        ((set_func_body (add_func lil_new "f".toList).1 (add_func lil_new "f".toList).2 ["args".toList] "ret".toList).cmd.getD
          (add_func lil_new "f".toList).2 default)
        ["f".toList, "x".toList])
      "args".toList = some "f x".toList ∧
    lil_list_to_value ["x".toList] true = "x".toList ∧
    some "f x".toList ≠ some "x".toList :=
  ⟨by decide, by decide, by decide⟩

/-- C5 amended: argument binding of `run_cmd`.  A declared argument list
that is exactly the single name `args` binds `args` (as a fresh local)
to the whole word line — command name included — serialized with
escaping; any other argument list is bound positionally, each nonempty
declared name becoming a fresh local holding the caller word after it
(`words` starts with the command name, so name `i` takes `words[i+1]`)
or the empty value when the caller supplied too few; binding consumes
the names in order and stops at the end of the declared list. -/
theorem bind_args_spec (fuel : Nat) (s : Interp) (cmd : LilFunc) (words : List LilValue) :
    ((cmd.argnames.getD []).length = 1 ∧
       lil_to_string (cmd.argnames.getD []).head? = "args".toList →
     bind_args (fuel + 2) s cmd words =
       appendVar s 0 "args".toList (some (lil_list_to_value words true))) ∧
    (¬((cmd.argnames.getD []).length = 1 ∧
       lil_to_string (cmd.argnames.getD []).head? = "args".toList) →
     bind_args (fuel + 1) s cmd words =
       bind_pos fuel s (cmd.argnames.getD []) 0 words) ∧
    (∀ (n : LilValue) (rest : List LilValue) (i : Nat) (s' : Interp),
       lil_to_string (some n) ≠ [] →
       bind_pos (fuel + 2) s' (n :: rest) i words =
         bind_pos (fuel + 1)
           (appendVar s' 0 (lil_to_string (some n))
             (if i < words.length - 1 then some (words.getD (i + 1) []) else some []))
           rest (i + 1) words) ∧
    bind_pos fuel s [] 0 words = s := by
  refine ⟨?_, ?_, ?_, ?_⟩
  · intro h
    simp only [bind_args, if_pos h, lil_set_var]
    rw [if_neg (show ¬("args".toList = []) by decide)]
    simp [set_var_resolve, lil_clone_value]
  · intro h
    simp only [bind_args, if_neg h]
  · intro n rest i s' hn
    simp only [bind_pos, lil_set_var]
    rw [if_neg hn]
    simp [set_var_resolve, lil_clone_value]
  · cases fuel with
    | zero => rfl
    | succ n => rfl

theorem bind_args_spec_witness :
    (((LilFunc.mk "f".toList (some "ret".toList) (some ["args".toList]) none).argnames.getD []).length = 1) ∧
    lil_to_string (((LilFunc.mk "f".toList (some "ret".toList) (some ["args".toList]) none).argnames.getD []).head?) = "args".toList ∧
    lil_to_string (some "a".toList) ≠ [] ∧
    bind_args 12 lil_new (LilFunc.mk "f".toList (some "ret".toList) (some ["args".toList]) none) ["f".toList, "x".toList] =
      appendVar lil_new 0 "args".toList (some (lil_list_to_value ["f".toList, "x".toList] true)) ∧
    bind_pos 12 lil_new ["a".toList] 0 ["f".toList, "x".toList] =
      bind_pos 11
        (appendVar lil_new 0 (lil_to_string (some "a".toList))
          (if 0 < ["f".toList, "x".toList].length - 1 then some (["f".toList, "x".toList].getD 1 []) else some []))
        [] 1 ["f".toList, "x".toList] :=
  ⟨by decide, by decide, by decide,
   (bind_args_spec 10 lil_new (LilFunc.mk "f".toList (some "ret".toList) (some ["args".toList]) none) ["f".toList, "x".toList]).1
     (by decide),
   (bind_args_spec 10 lil_new (LilFunc.mk "f".toList (some "ret".toList) (some ["args".toList]) none) ["f".toList, "x".toList]).2.2.1
     "a".toList [] 0 lil_new (by decide)⟩

/-- `env_set` writes only to the host store: variable records are
untouched. -/
theorem varAt_env_set (s : Interp) (n v : List Char) (loc : Nat × Nat) :
    varAt (env_set s n v) loc = varAt s loc := rfl

/-- Overwriting a variable's value (`var->v = …`) keeps its watch. -/
theorem varAt_w_setVarValue (s : Interp) (loc : Nat × Nat) (v : Option LilValue) :
    (varAt (setVarValue s loc v) loc).w = (varAt s loc).w := by
  unfold varAt setVarValue
  by_cases h1 : loc.1 < s.envs.length
  · by_cases h2 : loc.2 < (s.envs.getD loc.1 default).var.length
    · have h2' : loc.2 < (s.envs[loc.1]).var.length := by
        simpa [List.getD_eq_getElem?_getD, List.getElem?_eq_getElem h1] using h2
      simp [List.getD_eq_getElem?_getD, List.getElem?_set, h1, h2',
        List.getElem?_eq_getElem]
    · have h2' : ¬ loc.2 < (s.envs[loc.1]).var.length := by
        simpa [List.getD_eq_getElem?_getD, List.getElem?_eq_getElem h1] using h2
      simp [List.getD_eq_getElem?_getD, List.getElem?_set, h1, h2',
        List.getElem?_eq_none (show (s.envs[loc.1]).var.length ≤ loc.2 by omega)]
  · simp [List.set_eq_of_length_le (show s.envs.length ≤ loc.1 by omega)]

/-- C6 counterexample: overwriting the watched root variable `g` runs
the watch at *function level* (`lil_parse(lil, var->w, 0, 1)`), not as
the non-function fragment the claim states: the function-level watch
parse consumes the owner frame's pending `retval`/`retval_set`/`breakrun`
(here it clears the root frame's `retval_set`), while the spec-worded
variant `lil_set_var_spec` (funclevel 0) leaves them alone, and the two
runs produce different interpreters. -/
theorem set_var_watch_funclevel_counterexample :
    (varAt ({ lil_new with envs := [LilEnv.mk none none [LilVar.mk "g".toList (some " ".toList) (some "1".toList)] (some "R".toList) true true] } : Interp) (0, 0)).w = some " ".toList ∧
    " ".toList ≠ [] ∧
    (rootEnv (lil_set_var 10 ({ lil_new with envs := [LilEnv.mk none none [LilVar.mk "g".toList (some " ".toList) (some "1".toList)] (some "R".toList) true true] } : Interp) "g".toList (some "2".toList) .slocal).1).retval_set = false ∧
    (rootEnv (lil_set_var_spec 10 ({ lil_new with envs := [LilEnv.mk none none [LilVar.mk "g".toList (some " ".toList) (some "1".toList)] (some "R".toList) true true] } : Interp) "g".toList (some "2".toList) .slocal).1).retval_set = true ∧
    lil_set_var 10 ({ lil_new with envs := [LilEnv.mk none none [LilVar.mk "g".toList (some " ".toList) (some "1".toList)] (some "R".toList) true true] } : Interp) "g".toList (some "2".toList) .slocal ≠
      lil_set_var_spec 10 ({ lil_new with envs := [LilEnv.mk none none [LilVar.mk "g".toList (some " ".toList) (some "1".toList)] (some "R".toList) true true] } : Interp) "g".toList (some "2".toList) .slocal :=
  ⟨by decide, by decide, by decide, by decide, by decide⟩

/-- C6 amended: overwriting an existing variable that carries a watch
program runs the watch exactly once per assignment: after the value
update (and the host-store write when the owner is the root), the
environment chain is cut down to the owner's suffix, the watch code is
parsed exactly once at *function level* (`lil_parse(lil, var->w, 0, 1)` —
not as the non-function fragment the spec describes), its result is
discarded, and the chain is restored around the owner's suffix.  A
LOCAL_NEW assignment appends a fresh watch-free variable and evaluates
nothing (ghost command counter unchanged). -/
theorem lil_set_var_watch (fuel : Nat) (s : Interp) (name : List Char)
    (val : Option LilValue) (mode : SetvarMode) (loc : Nat × Nat) (wcode : List Char) :
    (∀ s1 r, name ≠ [] → mode ≠ .localNew →
       set_var_resolve s name mode = some loc →
       (varAt s loc).w = some wcode →
       s1 = setVarValue (if loc.1 = s.envs.length - 1 then env_set s name (lil_to_string val) else s) loc (lil_clone_value val) →
       r = lil_parse fuel { s1 with envs := s1.envs.drop loc.1 } wcode 0 true →
       lil_set_var (fuel + 1) s name val mode =
         ({ r.1 with envs := watch_restore s1.envs loc.1 r.1.envs }, some loc)) ∧
    (name ≠ [] →
       lil_set_var (fuel + 1) s name val .localNew =
         (appendVar s 0 name (lil_clone_value val),
          some (0, (s.envs.getD 0 default).var.length)) ∧
       (lil_set_var (fuel + 1) s name val .localNew).1.ghostExec = s.ghostExec) := by
  constructor
  · intro s1 r h1 h2 h3 h4 hs1 hr
    subst hs1
    subst hr
    simp only [lil_set_var]
    rw [if_neg h1]
    simp only [h3]
    by_cases hroot : loc.1 = s.envs.length - 1
    · simp [hroot, h2, varAt_w_setVarValue, varAt_env_set, h4]
    · simp [hroot, h2, varAt_w_setVarValue, varAt_env_set, h4]
  · intro h
    have hmain : lil_set_var (fuel + 1) s name val .localNew =
        (appendVar s 0 name (lil_clone_value val),
         some (0, (s.envs.getD 0 default).var.length)) := by
      simp only [lil_set_var]
      rw [if_neg h]
      simp [set_var_resolve]
    refine ⟨hmain, ?_⟩
    rw [hmain]
    rfl

theorem lil_set_var_watch_witness :
    ("g".toList ≠ [] ∧ SetvarMode.slocal ≠ SetvarMode.localNew ∧
     set_var_resolve ({ lil_new with envs := [LilEnv.mk none none [LilVar.mk "g".toList (some " ".toList) (some "1".toList)] (some "R".toList) true true] } : Interp) "g".toList .slocal = some (0, 0) ∧
     (varAt ({ lil_new with envs := [LilEnv.mk none none [LilVar.mk "g".toList (some " ".toList) (some "1".toList)] (some "R".toList) true true] } : Interp) (0, 0)).w = some " ".toList) ∧
    lil_set_var 10 ({ lil_new with envs := [LilEnv.mk none none [LilVar.mk "g".toList (some " ".toList) (some "1".toList)] (some "R".toList) true true] } : Interp) "g".toList (some "2".toList) .slocal =
      ({ (lil_parse 9 { setVarValue (if (0 : Nat) = ({ lil_new with envs := [LilEnv.mk none none [LilVar.mk "g".toList (some " ".toList) (some "1".toList)] (some "R".toList) true true] } : Interp).envs.length - 1 then env_set ({ lil_new with envs := [LilEnv.mk none none [LilVar.mk "g".toList (some " ".toList) (some "1".toList)] (some "R".toList) true true] } : Interp) "g".toList (lil_to_string (some "2".toList)) else ({ lil_new with envs := [LilEnv.mk none none [LilVar.mk "g".toList (some " ".toList) (some "1".toList)] (some "R".toList) true true] } : Interp)) (0, 0) (lil_clone_value (some "2".toList)) with envs := (setVarValue (if (0 : Nat) = ({ lil_new with envs := [LilEnv.mk none none [LilVar.mk "g".toList (some " ".toList) (some "1".toList)] (some "R".toList) true true] } : Interp).envs.length - 1 then env_set ({ lil_new with envs := [LilEnv.mk none none [LilVar.mk "g".toList (some " ".toList) (some "1".toList)] (some "R".toList) true true] } : Interp) "g".toList (lil_to_string (some "2".toList)) else ({ lil_new with envs := [LilEnv.mk none none [LilVar.mk "g".toList (some " ".toList) (some "1".toList)] (some "R".toList) true true] } : Interp)) (0, 0) (lil_clone_value (some "2".toList))).envs.drop 0 } " ".toList 0 true).1 with envs := watch_restore (setVarValue (if (0 : Nat) = ({ lil_new with envs := [LilEnv.mk none none [LilVar.mk "g".toList (some " ".toList) (some "1".toList)] (some "R".toList) true true] } : Interp).envs.length - 1 then env_set ({ lil_new with envs := [LilEnv.mk none none [LilVar.mk "g".toList (some " ".toList) (some "1".toList)] (some "R".toList) true true] } : Interp) "g".toList (lil_to_string (some "2".toList)) else ({ lil_new with envs := [LilEnv.mk none none [LilVar.mk "g".toList (some " ".toList) (some "1".toList)] (some "R".toList) true true] } : Interp)) (0, 0) (lil_clone_value (some "2".toList))).envs 0 (lil_parse 9 { setVarValue (if (0 : Nat) = ({ lil_new with envs := [LilEnv.mk none none [LilVar.mk "g".toList (some " ".toList) (some "1".toList)] (some "R".toList) true true] } : Interp).envs.length - 1 then env_set ({ lil_new with envs := [LilEnv.mk none none [LilVar.mk "g".toList (some " ".toList) (some "1".toList)] (some "R".toList) true true] } : Interp) "g".toList (lil_to_string (some "2".toList)) else ({ lil_new with envs := [LilEnv.mk none none [LilVar.mk "g".toList (some " ".toList) (some "1".toList)] (some "R".toList) true true] } : Interp)) (0, 0) (lil_clone_value (some "2".toList)) with envs := (setVarValue (if (0 : Nat) = ({ lil_new with envs := [LilEnv.mk none none [LilVar.mk "g".toList (some " ".toList) (some "1".toList)] (some "R".toList) true true] } : Interp).envs.length - 1 then env_set ({ lil_new with envs := [LilEnv.mk none none [LilVar.mk "g".toList (some " ".toList) (some "1".toList)] (some "R".toList) true true] } : Interp) "g".toList (lil_to_string (some "2".toList)) else ({ lil_new with envs := [LilEnv.mk none none [LilVar.mk "g".toList (some " ".toList) (some "1".toList)] (some "R".toList) true true] } : Interp)) (0, 0) (lil_clone_value (some "2".toList))).envs.drop 0 } " ".toList 0 true).1.envs }, some (0, 0)) ∧
    lil_set_var 10 lil_new "n".toList (some "v".toList) .localNew =
      (appendVar lil_new 0 "n".toList (lil_clone_value (some "v".toList)),
       some (0, (lil_new.envs.getD 0 default).var.length)) :=
  ⟨⟨by decide, by decide, by decide, by decide⟩,
   (lil_set_var_watch 9 ({ lil_new with envs := [LilEnv.mk none none [LilVar.mk "g".toList (some " ".toList) (some "1".toList)] (some "R".toList) true true] } : Interp) "g".toList (some "2".toList) .slocal (0, 0) " ".toList).1
     (setVarValue (if (0 : Nat) = ({ lil_new with envs := [LilEnv.mk none none [LilVar.mk "g".toList (some " ".toList) (some "1".toList)] (some "R".toList) true true] } : Interp).envs.length - 1 then env_set ({ lil_new with envs := [LilEnv.mk none none [LilVar.mk "g".toList (some " ".toList) (some "1".toList)] (some "R".toList) true true] } : Interp) "g".toList (lil_to_string (some "2".toList)) else ({ lil_new with envs := [LilEnv.mk none none [LilVar.mk "g".toList (some " ".toList) (some "1".toList)] (some "R".toList) true true] } : Interp)) (0, 0) (lil_clone_value (some "2".toList))) (lil_parse 9 { setVarValue (if (0 : Nat) = ({ lil_new with envs := [LilEnv.mk none none [LilVar.mk "g".toList (some " ".toList) (some "1".toList)] (some "R".toList) true true] } : Interp).envs.length - 1 then env_set ({ lil_new with envs := [LilEnv.mk none none [LilVar.mk "g".toList (some " ".toList) (some "1".toList)] (some "R".toList) true true] } : Interp) "g".toList (lil_to_string (some "2".toList)) else ({ lil_new with envs := [LilEnv.mk none none [LilVar.mk "g".toList (some " ".toList) (some "1".toList)] (some "R".toList) true true] } : Interp)) (0, 0) (lil_clone_value (some "2".toList)) with envs := (setVarValue (if (0 : Nat) = ({ lil_new with envs := [LilEnv.mk none none [LilVar.mk "g".toList (some " ".toList) (some "1".toList)] (some "R".toList) true true] } : Interp).envs.length - 1 then env_set ({ lil_new with envs := [LilEnv.mk none none [LilVar.mk "g".toList (some " ".toList) (some "1".toList)] (some "R".toList) true true] } : Interp) "g".toList (lil_to_string (some "2".toList)) else ({ lil_new with envs := [LilEnv.mk none none [LilVar.mk "g".toList (some " ".toList) (some "1".toList)] (some "R".toList) true true] } : Interp)) (0, 0) (lil_clone_value (some "2".toList))).envs.drop 0 } " ".toList 0 true) (by decide) (by decide) (by decide) (by decide) rfl rfl,
   ((lil_set_var_watch 9 lil_new "n".toList (some "v".toList) .localNew (0, 0) []).2 (by decide)).1⟩

/-- C2: `return` unwinds the function body.  (i) `fnc_return` sets the
current frame's `breakrun`/`retval_set` and stores the return value;
(ii) at the command loop, a line whose words are `return V` (dispatched
to the `return` built-in) ends the loop immediately with value `V` after
exactly one command dispatch — the remaining source is never executed;
(iii) at the function-call boundary (`funclevel` true), a set `retval_set`
makes the frame's stored value the parse result and clears `retval`,
`retval_set` and `breakrun`; (iv) concretely, parsing
`return 5\nboom boom` at function level yields `5`, one single command
dispatch, no error, and cleared flags. -/
theorem return_unwinds :
    (∀ (s : Interp) (e : LilEnv) (rest : List LilEnv) (args : List LilValue),
       s.envs = e :: rest →
       fnc_return s args =
         ({ s with envs := ({ e with breakrun := true, retval := args.head?, retval_set := true }) :: rest }, args.head?)) ∧
    (∀ (fuel : Nat) (s s2 : Interp) (V : LilValue) (ci : Nat) (e : LilEnv)
       (rest : List LilEnv),
       s.head < s.clen → s.error = .noError → s.ctrlcs = [] →
       substitute (mkHandlers (fuel + 2)) s = (some ["return".toList, V], s2) →
       s2.error = .noError →
       (lil_find_cmd s2.cmdmap "return".toList).1 = some ci →
       (s2.cmd.getD ci default).proc = some .preturn →
       s2.envs = e :: rest →
       parse_loop (fuel + 3) s none =
         ({ s2 with ghostExec := s2.ghostExec + 1, envs := ({ e with breakrun := true, retval := some V, retval_set := true }) :: rest }, some V)) ∧
    (∀ (save : Option (List Char) × Nat × Nat) (r : Interp × Option LilValue),
       (curEnv r.1).retval_set = true →
       (parse_epilogue save true r).2 = some (lil_to_string (curEnv r.1).retval) ∧
       (curEnv (parse_epilogue save true r).1).retval_set = false ∧
       (curEnv (parse_epilogue save true r).1).breakrun = false ∧
       (curEnv (parse_epilogue save true r).1).retval = none) ∧
    ((lil_parse 10 lil_new "return 5\nboom boom".toList 0 true).2 = some "5".toList ∧
     (lil_parse 10 lil_new "return 5\nboom boom".toList 0 true).1.ghostExec = 1 ∧
     (lil_parse 10 lil_new "return 5\nboom boom".toList 0 true).1.error = .noError ∧
     (curEnv (lil_parse 10 lil_new "return 5\nboom boom".toList 0 true).1).retval_set = false ∧
     (curEnv (lil_parse 10 lil_new "return 5\nboom boom".toList 0 true).1).breakrun = false) := by
  refine ⟨?_, ?_, ?_, by decide, by decide, by decide, by decide, by decide⟩
  · intro s e rest args henv
    simp [fnc_return, modifyCur, henv]
  · intro fuel s s2 V ci e rest hlt herr hc hsub hs2 hfind hproc henv
    have hp : ctrlc_poll s = (false, s) := by simp [ctrlc_poll, hc]
    have hrun : runcmd (fuel + 2) s2 ci ["return".toList, V] =
        ({ s2 with ghostExec := s2.ghostExec + 1, envs := ({ e with breakrun := true, retval := some V, retval_set := true }) :: rest }, some V) := by
      simp only [runcmd, hproc, dispatch_proc, fnc_return, modifyCur, henv]
      simp [hs2]
    simp only [parse_loop]
    rw [if_pos ⟨hlt, herr⟩]
    simp only [hp, hsub]
    rw [if_neg (by simp [hs2])]
    rw [if_pos (by simp)]
    simp only [List.head?_cons, lil_to_string, Option.getD_some, hfind, hrun]
    rw [if_pos (by simp [curEnv])]
  · intro save r hret
    unfold parse_epilogue
    simp only [curEnv] at hret ⊢
    rw [if_pos ⟨trivial, hret⟩]
    cases henvs : r.1.envs with
    | nil => simp [modifyCur, curEnv, henvs]
    | cons e es => simp [modifyCur, curEnv, henvs]

theorem return_unwinds_witness :
    (lil_new.envs = ({} : LilEnv) :: [] ∧
     ({ lil_new with code := some "return 5\nboom".toList, clen := 13, parse_depth := 1 } : Interp).head < ({ lil_new with code := some "return 5\nboom".toList, clen := 13, parse_depth := 1 } : Interp).clen ∧ ({ lil_new with code := some "return 5\nboom".toList, clen := 13, parse_depth := 1 } : Interp).error = .noError ∧ ({ lil_new with code := some "return 5\nboom".toList, clen := 13, parse_depth := 1 } : Interp).ctrlcs = [] ∧
     substitute (mkHandlers 7) ({ lil_new with code := some "return 5\nboom".toList, clen := 13, parse_depth := 1 } : Interp) = (some ["return".toList, "5".toList], ({ lil_new with code := some "return 5\nboom".toList, clen := 13, parse_depth := 1, head := 8 } : Interp)) ∧
     ({ lil_new with code := some "return 5\nboom".toList, clen := 13, parse_depth := 1, head := 8 } : Interp).error = .noError ∧
     (lil_find_cmd ({ lil_new with code := some "return 5\nboom".toList, clen := 13, parse_depth := 1, head := 8 } : Interp).cmdmap "return".toList).1 = some 9 ∧
     (({ lil_new with code := some "return 5\nboom".toList, clen := 13, parse_depth := 1, head := 8 } : Interp).cmd.getD 9 default).proc = some .preturn ∧
     ({ lil_new with code := some "return 5\nboom".toList, clen := 13, parse_depth := 1, head := 8 } : Interp).envs = ({} : LilEnv) :: [] ∧
     (curEnv (({ lil_new with envs := [LilEnv.mk none none [] (some "9".toList) true true] } : Interp), (none : Option LilValue)).1).retval_set = true) ∧
    fnc_return lil_new ["7".toList] =
      ({ lil_new with envs := ({ ({} : LilEnv) with breakrun := true, retval := ["7".toList].head?, retval_set := true }) :: [] }, ["7".toList].head?) ∧
    parse_loop 8 ({ lil_new with code := some "return 5\nboom".toList, clen := 13, parse_depth := 1 } : Interp) none =
      ({ ({ lil_new with code := some "return 5\nboom".toList, clen := 13, parse_depth := 1, head := 8 } : Interp) with ghostExec := ({ lil_new with code := some "return 5\nboom".toList, clen := 13, parse_depth := 1, head := 8 } : Interp).ghostExec + 1, envs := ({ ({} : LilEnv) with breakrun := true, retval := some "5".toList, retval_set := true }) :: [] }, some "5".toList) ∧
    ((parse_epilogue (none, 0, 0) true (({ lil_new with envs := [LilEnv.mk none none [] (some "9".toList) true true] } : Interp), (none : Option LilValue))).2 = some (lil_to_string (curEnv (({ lil_new with envs := [LilEnv.mk none none [] (some "9".toList) true true] } : Interp), (none : Option LilValue)).1).retval) ∧
     (curEnv (parse_epilogue (none, 0, 0) true (({ lil_new with envs := [LilEnv.mk none none [] (some "9".toList) true true] } : Interp), (none : Option LilValue))).1).retval_set = false ∧
     (curEnv (parse_epilogue (none, 0, 0) true (({ lil_new with envs := [LilEnv.mk none none [] (some "9".toList) true true] } : Interp), (none : Option LilValue))).1).breakrun = false ∧
     (curEnv (parse_epilogue (none, 0, 0) true (({ lil_new with envs := [LilEnv.mk none none [] (some "9".toList) true true] } : Interp), (none : Option LilValue))).1).retval = none) :=
  ⟨⟨by decide, by decide, by decide, by decide, by decide, by decide, by decide, by decide, by decide, by decide⟩,
   return_unwinds.1 lil_new {} [] ["7".toList] (by decide),
   return_unwinds.2.1 5 ({ lil_new with code := some "return 5\nboom".toList, clen := 13, parse_depth := 1 } : Interp) ({ lil_new with code := some "return 5\nboom".toList, clen := 13, parse_depth := 1, head := 8 } : Interp) "5".toList 9 {} [] (by decide) (by decide) (by decide) (by decide) (by decide) (by decide) (by decide) (by decide),
   return_unwinds.2.2.1 (none, 0, 0) (({ lil_new with envs := [LilEnv.mk none none [] (some "9".toList) true true] } : Interp), (none : Option LilValue)) (by decide)⟩

/-! ### Toolkit for the list round-trip (C3) -/

/-- Reading past a known prefix. -/
theorem atC_append_right (pre post : List Char) (i : Nat) :
    atC (pre ++ post) (pre.length + i) = atC post i := by
  unfold atC
  rw [List.getD_eq_getElem?_getD, List.getElem?_append_right (by omega),
    List.getD_eq_getElem?_getD]
  congr 2
  omega

/-- Reading inside a known prefix. -/
theorem atC_append_left (pre post : List Char) (i : Nat) (h : i < pre.length) :
    atC (pre ++ post) i = atC pre i := by
  unfold atC
  rw [List.getD_eq_getElem?_getD, List.getElem?_append, if_pos h, List.getD_eq_getElem?_getD]

/-- Reading at the boundary of a known prefix. -/
theorem atC_start (pre post : List Char) : atC (pre ++ post) pre.length = atC post 0 := by
  simpa using atC_append_right pre post 0

/-- A byte that is neither punctuation nor whitespace is none of the
bytes the tokenizer treats specially. -/
theorem plain_char_facts (c : Char) (hp : ispunctB c = false) (hs : isspaceB c = false) :
    islilspecial c = false ∧ c ≠ '#' ∧ c ≠ '\\' ∧ eolchar c = false := by
  refine ⟨?_, ?_, ?_, ?_⟩
  · rcases hc : islilspecial c with _ | _
    · rfl
    · exfalso
      simp only [islilspecial, Bool.or_eq_true, decide_eq_true_eq] at hc
      rcases hc with ((((((h|h)|h)|h)|h)|h)|h)|h <;> subst h <;> revert hp <;> decide
  · intro h; subst h; revert hp; decide
  · intro h; subst h; revert hp; decide
  · rcases hc : eolchar c with _ | _
    · rfl
    · exfalso
      simp only [eolchar, Bool.or_eq_true, decide_eq_true_eq] at hc
      rcases hc with (h|h)|h
      · subst h; revert hs; decide
      · subst h; revert hs; decide
      · subst h; revert hp; decide

/-- `lil_skip_spaces` does not move off a byte that starts no comment,
no continuation, no end of line and no whitespace. -/
theorem skip_spaces_pos_stop (code : List Char) (clen : Nat) (ieol : Bool) (gas h : Nat)
    (h1 : isspaceB (atC code h) = false) (h2 : atC code h ≠ '#')
    (h3 : atC code h ≠ '\\') (h4 : eolchar (atC code h) = false) :
    skip_spaces_pos code clen ieol gas h = h := by
  cases gas with
  | zero => rfl
  | succ g =>
    simp only [skip_spaces_pos]
    by_cases hlt : h < clen
    · rw [if_pos hlt, if_neg h2, if_neg (fun hh => h3 hh.1), if_neg (by simp [h4]),
        if_neg (by simp [h1])]
    · rw [if_neg hlt]

/-- `lil_skip_spaces` does not move once the cursor reached the end. -/
theorem skip_spaces_pos_end (code : List Char) (clen : Nat) (ieol : Bool) (gas h : Nat)
    (hge : ¬ h < clen) : skip_spaces_pos code clen ieol gas h = h := by
  cases gas with
  | zero => rfl
  | succ g =>
    simp only [skip_spaces_pos]
    rw [if_neg hge]

/-- `lil_skip_spaces` walks over a space byte. -/
theorem skip_spaces_pos_space (code : List Char) (clen : Nat) (ieol : Bool) (gas h : Nat)
    (hlt : h < clen) (hsp : atC code h = ' ') :
    skip_spaces_pos code clen ieol (gas + 1) h = skip_spaces_pos code clen ieol gas (h + 1) := by
  simp only [skip_spaces_pos]
  rw [if_pos hlt, if_neg (by rw [hsp]; decide), if_neg (by rw [hsp]; simp),
    if_neg (by rw [hsp]; decide), if_pos (by rw [hsp]; decide)]

/-- The bare-word scan consumes exactly a run of plain bytes. -/
theorem bareword_end_plain (w : List Char) :
    ∀ (pre suf : List Char) (gas : Nat),
    (∀ c ∈ w, isspaceB c = false ∧ islilspecial c = false) →
    w.length + 1 ≤ gas →
    (suf = [] ∨ isspaceB (atC suf 0) = true ∨ islilspecial (atC suf 0) = true) →
    bareword_end (pre ++ w ++ suf) (pre ++ w ++ suf).length gas pre.length =
      pre.length + w.length := by
  induction w with
  | nil =>
    intro pre suf gas _ hg hsuf
    obtain ⟨g, rfl⟩ : ∃ g, gas = g + 1 := ⟨gas - 1, by omega⟩
    simp only [List.append_nil, List.length_nil, Nat.add_zero]
    simp only [bareword_end]
    rcases hsuf with h | h | h
    · subst h
      rw [if_neg (by simp)]
    · rw [if_neg (fun hcon => by rw [atC_start] at hcon; simp [h] at hcon)]
    · rw [if_neg (fun hcon => by rw [atC_start] at hcon; simp [h] at hcon)]
  | cons c cs ih =>
    intro pre suf gas hw hg hsuf
    obtain ⟨g, rfl⟩ : ∃ g, gas = g + 1 := ⟨gas - 1, by omega⟩
    have hc := hw c (List.mem_cons_self c cs)
    have hshape : pre ++ (c :: cs) ++ suf = (pre ++ [c]) ++ cs ++ suf := by simp
    rw [hshape]
    have hat : atC ((pre ++ [c]) ++ cs ++ suf) pre.length = c := by
      rw [List.append_assoc, atC_append_left _ _ _ (by simp)]
      have := atC_start pre [c]
      simpa using this
    simp only [bareword_end]
    rw [if_pos ⟨by simp, by rw [hat]; simp [hc.1], by rw [hat]; simp [hc.2]⟩]
    have := ih (pre ++ [c]) suf g (fun d hm => hw d (List.mem_cons_of_mem _ hm))
      (by simpa using hg) hsuf
    rw [show pre.length + 1 = (pre ++ [c]).length by simp]
    rw [this]
    simp
    omega

/-- The balanced-brace scan at depth 1 collects exactly the brace-free
bytes up to the closing brace. -/
theorem braced_scan_chunk (chunk : List Char) :
    ∀ (pre suf : List Char) (gas : Nat),
    (∀ c ∈ chunk, c ≠ lbrace ∧ c ≠ rbrace) →
    chunk.length + 1 ≤ gas →
    braced_scan lbrace rbrace (pre ++ chunk ++ rbrace :: suf)
      (pre ++ chunk ++ rbrace :: suf).length gas pre.length 1 =
      (chunk, pre.length + chunk.length + 1, 0) := by
  induction chunk with
  | nil =>
    intro pre suf gas _ hg
    obtain ⟨g, rfl⟩ : ∃ g, gas = g + 1 := ⟨gas - 1, by omega⟩
    simp only [List.append_nil, List.length_nil, Nat.add_zero]
    have hat : atC (pre ++ rbrace :: suf) pre.length = rbrace := by
      rw [atC_start]; rfl
    simp only [braced_scan, hat]
    rw [if_pos (by simp), if_neg (by decide)]
    simp
  | cons c cs ih =>
    intro pre suf gas hch hg
    obtain ⟨g, rfl⟩ : ∃ g, gas = g + 1 := ⟨gas - 1, by omega⟩
    have hc := hch c (List.mem_cons_self c cs)
    have hshape : pre ++ (c :: cs) ++ rbrace :: suf = (pre ++ [c]) ++ cs ++ rbrace :: suf := by
      simp
    rw [hshape]
    have hat : atC ((pre ++ [c]) ++ cs ++ rbrace :: suf) pre.length = c := by
      rw [List.append_assoc, atC_append_left _ _ _ (by simp)]
      simpa using atC_start pre [c]
    simp only [braced_scan, hat]
    rw [if_pos (by simp), if_neg hc.1, if_neg hc.2]
    rw [show pre.length + 1 = (pre ++ [c]).length by simp]
    rw [ih (pre ++ [c]) suf g (fun d hm => hch d (List.mem_cons_of_mem _ hm))
      (by simpa using hg)]
    simp
    omega

/-- The quoted-string scan over an escape pair followed by the closing
quote collects exactly the unescaped byte. -/
theorem quote_scan_esc (H : Handlers) (x : Char) (pre suf acc : List Char) (gas : Nat)
    (s : Interp)
    (hcode : s.code = some (pre ++ '\\' :: x :: '"' :: suf))
    (hclen : s.clen = (pre ++ '\\' :: x :: '"' :: suf).length)
    (hhead : s.head = pre.length)
    (hg : 2 ≤ gas) :
    quote_scan H '"' gas s acc =
      (true, acc ++ [escapeChar x], { s with head := pre.length + 3 }) := by
  obtain ⟨g, rfl⟩ : ∃ g, gas = g + 2 := ⟨gas - 2, by omega⟩
  have hcS : s.codeS = pre ++ '\\' :: x :: '"' :: suf := by
    simp [Interp.codeS, hcode]
  have hat0 : atI s s.head = '\\' := by
    rw [atI, hcS, hhead, atC_start]
    rfl
  have hat1 : atI s (s.head + 1) = x := by
    rw [atI, hcS, hhead, atC_append_right pre _ 1]
    rfl
  simp only [quote_scan]
  rw [if_pos (by rw [hhead, hclen]; simp)]
  rw [if_neg (by simp [hat0]), if_pos hat0, hat1]
  have hat2 : atI { s with head := s.head + 2 } (s.head + 2) = '"' := by
    show atC s.codeS (s.head + 2) = '"'
    rw [hcS, hhead, atC_append_right pre _ 2]
    rfl
  rw [if_pos (show s.head + 2 < s.clen by rw [hhead, hclen]; simp)]
  rw [if_neg (by simp [hat2]), if_neg (by rw [hat2]; decide), if_pos hat2]
  rw [hhead]

/-- Unpacking `islilspecial c = false`. -/
theorem islilspecial_false (c : Char) (h : islilspecial c = false) :
    c ≠ '$' ∧ c ≠ lbrace ∧ c ≠ rbrace ∧ c ≠ '[' ∧ c ≠ ']' ∧ c ≠ '"' ∧ c ≠ '\'' ∧ c ≠ ';' := by
  refine ⟨fun hh => ?_, fun hh => ?_, fun hh => ?_, fun hh => ?_, fun hh => ?_,
    fun hh => ?_, fun hh => ?_, fun hh => ?_⟩ <;> subst hh <;> revert h <;> decide

/-- `next_word` on a braced word: collects the brace-free content and
leaves the cursor after the closing brace. -/
theorem next_word_braced (H : Handlers) (s : Interp) (pre chunk suf : List Char)
    (hcode : s.code = some (pre ++ (lbrace :: (chunk ++ rbrace :: suf))))
    (hclen : s.clen = (pre ++ (lbrace :: (chunk ++ rbrace :: suf))).length)
    (hhead : s.head = pre.length)
    (hch : ∀ c ∈ chunk, c ≠ lbrace ∧ c ≠ rbrace) :
    next_word H s = (chunk, { s with head := pre.length + chunk.length + 2 }) := by
  have hcS : s.codeS = pre ++ (lbrace :: (chunk ++ rbrace :: suf)) := by
    simp [Interp.codeS, hcode]
  have hat : atC s.codeS s.head = lbrace := by
    rw [hcS, hhead, atC_start]
    rfl
  have hskip : lil_skip_spaces s = s := by
    unfold lil_skip_spaces
    rw [skip_spaces_pos_stop _ _ _ _ _ (by rw [hat]; decide) (by rw [hat]; decide)
      (by rw [hat]; decide) (by rw [hat]; decide)]
  have hat' : atI s s.head = lbrace := hat
  rw [next_word, hskip]
  unfold next_word_at
  rw [if_neg (by rw [hat']; decide), if_pos hat']
  have hb : braced_scan lbrace rbrace s.codeS s.clen (s.clen + 1) (s.head + 1) 1 =
      (chunk, pre.length + chunk.length + 2, 0) := by
    have hsh : s.codeS = (pre ++ [lbrace]) ++ chunk ++ rbrace :: suf := by
      rw [hcS]; simp
    have hlen : s.clen = ((pre ++ [lbrace]) ++ chunk ++ rbrace :: suf).length := by
      rw [hclen]; simp
    rw [hsh, hlen, hhead, show pre.length + 1 = (pre ++ [lbrace]).length by simp]
    have := braced_scan_chunk chunk (pre ++ [lbrace]) suf
      (((pre ++ [lbrace]) ++ chunk ++ rbrace :: suf).length + 1) hch
      (by simp only [List.length_append, List.length_cons]; omega)
    rw [this]
    simp
    omega
  rw [hb]
  rw [if_neg (by simp)]

/-- `next_word` on a quoted escape pair `"\x"`: collects the unescaped
byte and leaves the cursor after the closing quote. -/
theorem next_word_quoted (H : Handlers) (s : Interp) (pre suf : List Char) (x : Char)
    (hcode : s.code = some (pre ++ '"' :: '\\' :: x :: '"' :: suf))
    (hclen : s.clen = (pre ++ '"' :: '\\' :: x :: '"' :: suf).length)
    (hhead : s.head = pre.length) :
    next_word H s = ([escapeChar x], { s with head := pre.length + 4 }) := by
  have hcS : s.codeS = pre ++ '"' :: '\\' :: x :: '"' :: suf := by
    simp [Interp.codeS, hcode]
  have hat : atC s.codeS s.head = '"' := by
    rw [hcS, hhead, atC_start]
    rfl
  have hskip : lil_skip_spaces s = s := by
    unfold lil_skip_spaces
    rw [skip_spaces_pos_stop _ _ _ _ _ (by rw [hat]; decide) (by rw [hat]; decide)
      (by rw [hat]; decide) (by rw [hat]; decide)]
  have hat' : atI s s.head = '"' := hat
  rw [next_word, hskip]
  unfold next_word_at
  rw [if_neg (by rw [hat']; decide), if_neg (by rw [hat']; decide),
    if_neg (by rw [hat']; decide), if_pos (Or.inl hat'), hat']
  have hq : quote_scan H '"' (s.clen + 1) { s with head := s.head + 1 } [] =
      (true, [escapeChar x], { s with head := pre.length + 4 }) := by
    have := quote_scan_esc H x (pre ++ ['"']) suf [] (s.clen + 1)
      { s with head := s.head + 1 }
      (by rw [hcode]; simp) (by rw [hclen]; simp) (by rw [hhead]; simp)
      (by rw [hclen]; simp only [List.length_append, List.length_cons]; omega)
    simpa using this
  rw [hq]
  simp

/-- `next_word` on a plain bare word. -/
theorem next_word_bare (H : Handlers) (s : Interp) (pre w suf : List Char)
    (hcode : s.code = some (pre ++ w ++ suf))
    (hclen : s.clen = (pre ++ w ++ suf).length)
    (hhead : s.head = pre.length)
    (hw : w ≠ [])
    (hwc : ∀ c ∈ w, ispunctB c = false ∧ isspaceB c = false)
    (hsuf : suf = [] ∨ isspaceB (atC suf 0) = true ∨ islilspecial (atC suf 0) = true) :
    next_word H s = (w, { s with head := pre.length + w.length }) := by
  obtain ⟨c0, w', rfl⟩ : ∃ c0 w', w = c0 :: w' := by
    cases w with
    | nil => exact absurd rfl hw
    | cons a b => exact ⟨a, b, rfl⟩
  have hc0 := hwc c0 (List.mem_cons_self c0 w')
  have pf := plain_char_facts c0 hc0.1 hc0.2
  have hsp := islilspecial_false c0 pf.1
  have hcS : s.codeS = pre ++ (c0 :: w') ++ suf := by
    simp [Interp.codeS, hcode]
  have hat : atC s.codeS s.head = c0 := by
    rw [hcS, hhead, List.append_assoc, atC_start]
    rfl
  have hskip : lil_skip_spaces s = s := by
    unfold lil_skip_spaces
    rw [skip_spaces_pos_stop _ _ _ _ _ (by rw [hat]; exact hc0.2) (by rw [hat]; exact pf.2.1)
      (by rw [hat]; exact pf.2.2.1) (by rw [hat]; exact pf.2.2.2)]
  have hat' : atI s s.head = c0 := hat
  rw [next_word, hskip]
  unfold next_word_at
  rw [if_neg (by rw [hat']; exact hsp.1), if_neg (by rw [hat']; exact hsp.2.1),
    if_neg (by rw [hat']; exact hsp.2.2.2.1),
    if_neg (by rw [hat']; rintro (h | h); exacts [hsp.2.2.2.2.2.1 h, hsp.2.2.2.2.2.2.1 h])]
  have hbe : bareword_end s.codeS s.clen (s.clen + 1) s.head =
      pre.length + (c0 :: w').length := by
    rw [hcS, hclen, hhead]
    exact bareword_end_plain (c0 :: w') pre suf _
      (fun d hm => ⟨(hwc d hm).2, (plain_char_facts d (hwc d hm).1 (hwc d hm).2).1⟩)
      (by simp only [List.length_append, List.length_cons]; omega) hsuf
  rw [hbe, hcS, hhead]
  rw [List.append_assoc, List.drop_left, Nat.add_sub_cancel_left, List.take_left]

/-- Reading past a leading byte. -/
theorem atC_cons_succ (c : Char) (t : List Char) (i : Nat) :
    atC (c :: t) (i + 1) = atC t i := rfl

/-- The escaping loop distributes over concatenation. -/
theorem escBody_append (a b : List Char) : escBody (a ++ b) = escBody a ++ escBody b := by
  simp [escBody]

/-- The escaping loop copies brace-free text verbatim. -/
theorem escBody_plain : ∀ w : List Char, (∀ c ∈ w, isbrace c = false) → escBody w = w := by
  intro w
  induction w with
  | nil => intro _; rfl
  | cons c cs ih =>
    intro h
    have hc := h c (List.mem_cons_self c cs)
    simp only [isbrace, Bool.or_eq_false_iff, decide_eq_false_iff_not] at hc
    simp only [escBody, List.flatMap_cons]
    rw [if_neg hc.1, if_neg hc.2]
    have := ih (fun d hm => h d (List.mem_cons_of_mem _ hm))
    simp only [escBody] at this
    rw [this]
    rfl

/-- The escaping loop turns one brace byte into its smuggling sequence. -/
theorem escBody_single_brace (b : Char) (hb : isbrace b = true) : escBody [b] = escSeq b := by
  simp only [isbrace, Bool.or_eq_true, decide_eq_true_eq] at hb
  rcases hb with h | h <;> subst h <;> rfl

/-- A string without brace bytes. -/
theorem braceCount_zero (w : List Char) (h : braceCount w = 0) :
    ∀ c ∈ w, isbrace c = false := by
  intro c hc
  by_contra hb
  have hb' : isbrace c = true := by revert hb; cases isbrace c <;> simp
  have hmem : c ∈ w.filter isbrace := List.mem_filter.mpr ⟨hc, hb'⟩
  have := List.length_pos.mpr (List.ne_nil_of_mem hmem)
  rw [braceCount] at h
  omega

/-- Splitting a string at its first brace byte. -/
theorem braceCount_split : ∀ (w : List Char) (n : Nat), braceCount w = n + 1 →
    ∃ chunk b rest, w = chunk ++ b :: rest ∧ (∀ c ∈ chunk, isbrace c = false) ∧
      isbrace b = true ∧ braceCount rest = n := by
  intro w
  induction w with
  | nil => intro n h; simp [braceCount] at h
  | cons c cs ih =>
    intro n h
    by_cases hb : isbrace c = true
    · refine ⟨[], c, cs, by simp, by simp, hb, ?_⟩
      have hcc : braceCount (c :: cs) = braceCount cs + 1 := by
        simp [braceCount, List.filter_cons, hb]
      omega
    · have hb' : isbrace c = false := by revert hb; cases isbrace c <;> simp
      have hcc : braceCount (c :: cs) = braceCount cs := by
        simp [braceCount, List.filter_cons, hb']
      obtain ⟨chunk, b, rest, h1, h2, h3, h4⟩ := ih n (by omega)
      refine ⟨c :: chunk, b, rest, by rw [h1]; rfl, ?_, h3, h4⟩
      intro d hm
      rcases List.mem_cons.mp hm with h | h
      · subst h; exact hb'
      · exact h2 d h

/-- `word_concat` over one braced word followed by a word break: the
brace-free case of an escaped entry. -/
theorem word_concat_braceFree (w : List Char) (H : Handlers) (s : Interp)
    (pre suf acc : List Char) (gas : Nat)
    (hbf : ∀ c ∈ w, isbrace c = false)
    (hcode : s.code = some (pre ++ (lbrace :: (w ++ rbrace :: suf))))
    (hclen : s.clen = (pre ++ (lbrace :: (w ++ rbrace :: suf))).length)
    (hhead : s.head = pre.length)
    (herr : s.error = .noError)
    (hg : 1 ≤ gas)
    (hsuf : suf = [] ∨ isspaceB (atC suf 0) = true) :
    word_concat H gas s acc =
      (some (acc ++ w), { s with head := pre.length + w.length + 2 }) := by
  obtain ⟨g, rfl⟩ : ∃ g, gas = g + 1 := ⟨gas - 1, by omega⟩
  have hcS : s.codeS = pre ++ (lbrace :: (w ++ rbrace :: suf)) := by
    simp [Interp.codeS, hcode]
  have hnw := next_word_braced H s pre w suf hcode hclen hhead
    (fun c hm => by
      have := hbf c hm
      simp only [isbrace, Bool.or_eq_false_iff, decide_eq_false_iff_not] at this
      exact this)
  have hatX : atC s.codeS (pre.length + w.length + 2) = atC suf 0 := by
    rw [hcS, show pre.length + w.length + 2 = pre.length + (w.length + 1 + 1) by omega,
      atC_append_right, atC_cons_succ, atC_append_right w (rbrace :: suf) 1, atC_cons_succ]
  have hatI : atI { s with head := pre.length + w.length + 2 }
      (pre.length + w.length + 2) = atC suf 0 := hatX
  simp only [word_concat, hnw]
  rw [if_neg (by rw [hhead]; omega)]
  rw [if_neg ?stop]
  case stop =>
    intro hcon
    rcases hsuf with hnil | hsp
    · have h1 := hcon.1
      rw [hclen] at h1
      subst hnil
      simp only [List.length_append, List.length_cons, List.length_nil] at h1
      omega
    · rw [hatI] at hcon
      exact hcon.2.2.1 hsp

/-- The smuggling sequence, spelled out. -/
theorem escSeq_explicit (b : Char) (hb : isbrace b = true) :
    escSeq b = rbrace :: '"' :: '\\' :: escX b :: '"' :: lbrace :: [] := by
  simp only [isbrace, Bool.or_eq_true, decide_eq_true_eq] at hb
  rcases hb with h | h <;> subst h <;> rfl

/-- Unescaping the quote letter recovers the brace byte. -/
theorem escapeChar_escX (b : Char) (hb : isbrace b = true) : escapeChar (escX b) = b := by
  simp only [isbrace, Bool.or_eq_true, decide_eq_true_eq] at hb
  rcases hb with h | h <;> subst h <;> rfl

/-- One continuing iteration of the word-building loop of `substitute`. -/
theorem word_concat_step_continue (H : Handlers) (gas : Nat) (s : Interp)
    (acc : List Char) (X : LilValue) (s' : Interp)
    (hnw : next_word H s = (X, s'))
    (hne : s'.head ≠ s.head)
    (hc1 : s'.head < s'.clen) (hc2 : eolchar (atI s' s'.head) = false)
    (hc3 : isspaceB (atI s' s'.head) = false) (hc4 : s'.error = .noError) :
    word_concat H (gas + 1) s acc = word_concat H gas s' (acc ++ X) := by
  simp only [word_concat, hnw]
  rw [if_neg hne, if_pos ⟨hc1, by simp [hc2], by simp [hc3], hc4⟩]

/-- `word_concat` over a whole escaped entry `{…}` with the smuggling
sequences: collects exactly the original bytes. -/
theorem word_concat_escaped (n : Nat) : ∀ (w : List Char), braceCount w ≤ n →
    ∀ (H : Handlers) (s : Interp) (pre suf acc : List Char) (gas : Nat),
    s.code = some (pre ++ (lbrace :: (escBody w ++ rbrace :: suf))) →
    s.clen = (pre ++ (lbrace :: (escBody w ++ rbrace :: suf))).length →
    s.head = pre.length →
    s.error = .noError →
    2 * n + 1 ≤ gas →
    (suf = [] ∨ isspaceB (atC suf 0) = true) →
    word_concat H gas s acc =
      (some (acc ++ w), { s with head := pre.length + (escBody w).length + 2 }) := by
  induction n with
  | zero =>
    intro w hw H s pre suf acc gas hcode hclen hhead herr hg hsuf
    have hbf := braceCount_zero w (by omega)
    have heb : escBody w = w := escBody_plain w hbf
    rw [heb] at hcode hclen ⊢
    exact word_concat_braceFree w H s pre suf acc gas hbf hcode hclen hhead herr
      (by omega) hsuf
  | succ n ih =>
    intro w hw H s pre suf acc gas hcode hclen hhead herr hg hsuf
    by_cases h0 : braceCount w = 0
    · have hbf := braceCount_zero w h0
      have heb : escBody w = w := escBody_plain w hbf
      rw [heb] at hcode hclen ⊢
      exact word_concat_braceFree w H s pre suf acc gas hbf hcode hclen hhead herr
        (by omega) hsuf
    · obtain ⟨m, hm⟩ : ∃ m, braceCount w = m + 1 := ⟨braceCount w - 1, by omega⟩
      obtain ⟨chunk, b, rest, hw1, hch, hb, hrest⟩ := braceCount_split w m hm
      have heb : escBody w =
          chunk ++ (rbrace :: '"' :: '\\' :: escX b :: '"' :: lbrace :: [] ++ escBody rest) := by
        rw [hw1, show (chunk ++ b :: rest : List Char) = chunk ++ ([b] ++ rest) by simp,
          escBody_append, escBody_append, escBody_plain chunk hch,
          escBody_single_brace b hb, escSeq_explicit b hb]
      obtain ⟨g2, rfl⟩ : ∃ g2, gas = g2 + 1 + 1 := ⟨gas - 2, by omega⟩
      have hcode1 : s.code = some (pre ++ (lbrace :: (chunk ++ rbrace ::
          ('"' :: '\\' :: escX b :: '"' :: (lbrace :: (escBody rest ++ rbrace :: suf)))))) := by
        rw [hcode, heb]
        simp
      have hclen1 : s.clen = (pre ++ (lbrace :: (chunk ++ rbrace ::
          ('"' :: '\\' :: escX b :: '"' :: (lbrace :: (escBody rest ++ rbrace :: suf)))))).length := by
        rw [hclen, heb]
        simp
      have hnw1 := next_word_braced H s pre chunk
        ('"' :: '\\' :: escX b :: '"' :: (lbrace :: (escBody rest ++ rbrace :: suf)))
        hcode1 hclen1 hhead
        (fun c hm' => by
          have := hch c hm'
          simp only [isbrace, Bool.or_eq_false_iff, decide_eq_false_iff_not] at this
          exact this)
      have hcS : s.codeS = pre ++ (lbrace :: (chunk ++ rbrace ::
          ('"' :: '\\' :: escX b :: '"' :: (lbrace :: (escBody rest ++ rbrace :: suf))))) := by
        simp [Interp.codeS, hcode1]
      have hat1 : atC s.codeS (pre.length + chunk.length + 2) = '"' := by
        rw [hcS, show pre.length + chunk.length + 2 = pre.length + (chunk.length + 1 + 1) by omega,
          atC_append_right, atC_cons_succ, atC_append_right chunk _ 1, atC_cons_succ]
        rfl
      have hstep1 := word_concat_step_continue H (g2 + 1) s acc chunk
        { s with head := pre.length + chunk.length + 2 } hnw1
        (by rw [hhead]; simp; omega)
        (by rw [hclen1]; simp; omega)
        (by rw [show atI { s with head := pre.length + chunk.length + 2 }
            (pre.length + chunk.length + 2) = atC s.codeS (pre.length + chunk.length + 2) from rfl,
            hat1]; rfl)
        (by rw [show atI { s with head := pre.length + chunk.length + 2 }
            (pre.length + chunk.length + 2) = atC s.codeS (pre.length + chunk.length + 2) from rfl,
            hat1]; rfl)
        herr
      rw [hstep1]
      have hcode2 : ({ s with head := pre.length + chunk.length + 2 } : Interp).code =
          some ((pre ++ (lbrace :: (chunk ++ [rbrace]))) ++
            '"' :: '\\' :: escX b :: '"' :: (lbrace :: (escBody rest ++ rbrace :: suf))) := by
        show s.code = _
        rw [hcode1]
        simp
      have hclen2 : ({ s with head := pre.length + chunk.length + 2 } : Interp).clen =
          ((pre ++ (lbrace :: (chunk ++ [rbrace]))) ++
            '"' :: '\\' :: escX b :: '"' :: (lbrace :: (escBody rest ++ rbrace :: suf))).length := by
        show s.clen = _
        rw [hclen1]
        simp
      have hhead2 : ({ s with head := pre.length + chunk.length + 2 } : Interp).head =
          (pre ++ (lbrace :: (chunk ++ [rbrace]))).length := by
        simp
        omega
      have hnw2 := next_word_quoted H { s with head := pre.length + chunk.length + 2 }
        (pre ++ (lbrace :: (chunk ++ [rbrace])))
        (lbrace :: (escBody rest ++ rbrace :: suf)) (escX b) hcode2 hclen2 hhead2
      have hat2 : atC s.codeS (pre.length + chunk.length + 2 + 4) = lbrace := by
        rw [hcS, show pre.length + chunk.length + 2 + 4 = pre.length + (chunk.length + 1 + 1 + 4) by omega,
          atC_append_right, atC_cons_succ,
          show chunk.length + 1 + 4 = chunk.length + 5 by omega,
          show (5 : Nat) = 4 + 1 by rfl,
          atC_append_right chunk _ (4 + 1), atC_cons_succ, atC_cons_succ, atC_cons_succ,
          atC_cons_succ, atC_cons_succ]
        rfl
      have hlen24 : (pre ++ (lbrace :: (chunk ++ [rbrace]))).length + 4 =
          pre.length + chunk.length + 2 + 4 := by
        simp only [List.length_append, List.length_cons, List.length_nil]
        omega
      have hatI2 : atI { s with head := (pre ++ (lbrace :: (chunk ++ [rbrace]))).length + 4 }
          ((pre ++ (lbrace :: (chunk ++ [rbrace]))).length + 4) = lbrace := by
        show atC s.codeS _ = _
        rw [hlen24, hat2]
      have hstep2 := word_concat_step_continue H g2
        { s with head := pre.length + chunk.length + 2 } (acc ++ chunk)
        [escapeChar (escX b)]
        { s with head := (pre ++ (lbrace :: (chunk ++ [rbrace]))).length + 4 }
        (by rw [hnw2])
        (by show _ ≠ ({ s with head := pre.length + chunk.length + 2 } : Interp).head
            simp only [hlen24]
            simp)
        (by show _ < s.clen
            rw [hclen1, hlen24]
            simp
            omega)
        (by rw [hatI2]; rfl)
        (by rw [hatI2]; rfl)
        herr
      rw [hstep2]
      have hcode3 : ({ s with head := (pre ++ (lbrace :: (chunk ++ [rbrace]))).length + 4 } : Interp).code =
          some (((pre ++ (lbrace :: (chunk ++ [rbrace]))) ++ ['"', '\\', escX b, '"']) ++
            (lbrace :: (escBody rest ++ rbrace :: suf))) := by
        show s.code = _
        rw [hcode1]
        simp
      have hclen3 : ({ s with head := (pre ++ (lbrace :: (chunk ++ [rbrace]))).length + 4 } : Interp).clen =
          ((((pre ++ (lbrace :: (chunk ++ [rbrace]))) ++ ['"', '\\', escX b, '"']) ++
            (lbrace :: (escBody rest ++ rbrace :: suf)))).length := by
        show s.clen = _
        rw [hclen1]
        simp
      have hhead3 : ({ s with head := (pre ++ (lbrace :: (chunk ++ [rbrace]))).length + 4 } : Interp).head =
          ((pre ++ (lbrace :: (chunk ++ [rbrace]))) ++ ['"', '\\', escX b, '"']).length := by
        simp only [List.length_append, List.length_cons, List.length_nil]
      have hihr := ih rest (by omega) H
        { s with head := (pre ++ (lbrace :: (chunk ++ [rbrace]))).length + 4 }
        ((pre ++ (lbrace :: (chunk ++ [rbrace]))) ++ ['"', '\\', escX b, '"'])
        suf (acc ++ chunk ++ [escapeChar (escX b)]) g2 hcode3 hclen3 hhead3 herr
        (by omega) hsuf
      rw [hihr, escapeChar_escX b hb]
      rw [show acc ++ chunk ++ [b] ++ rest = acc ++ w by rw [hw1]; simp]
      rw [show ((pre ++ (lbrace :: (chunk ++ [rbrace]))) ++ ['"', '\\', escX b, '"']).length +
          (escBody rest).length + 2 = pre.length + (escBody w).length + 2 by
        rw [heb]
        simp only [List.length_append, List.length_cons, List.length_nil]
        omega]

/-- `word_concat` over one unescaped (plain bare-word) entry. -/
theorem word_concat_unescaped (w : List Char) (H : Handlers) (s : Interp)
    (pre suf acc : List Char) (gas : Nat)
    (hw : w ≠ [])
    (hwc : ∀ c ∈ w, ispunctB c = false ∧ isspaceB c = false)
    (hcode : s.code = some (pre ++ w ++ suf))
    (hclen : s.clen = (pre ++ w ++ suf).length)
    (hhead : s.head = pre.length)
    (herr : s.error = .noError)
    (hg : 1 ≤ gas)
    (hsuf : suf = [] ∨ isspaceB (atC suf 0) = true) :
    word_concat H gas s acc = (some (acc ++ w), { s with head := pre.length + w.length }) := by
  obtain ⟨g, rfl⟩ : ∃ g, gas = g + 1 := ⟨gas - 1, by omega⟩
  have hnw := next_word_bare H s pre w suf hcode hclen hhead hw hwc
    (by rcases hsuf with h | h
        · exact Or.inl h
        · exact Or.inr (Or.inl h))
  have hcS : s.codeS = pre ++ w ++ suf := by simp [Interp.codeS, hcode]
  have hatX : atC s.codeS (pre.length + w.length) = atC suf 0 := by
    rw [hcS, List.append_assoc, atC_append_right, atC_start]
  have hatI : atI { s with head := pre.length + w.length } (pre.length + w.length) =
      atC suf 0 := hatX
  have hwpos := List.length_pos.mpr hw
  simp only [word_concat, hnw]
  rw [if_neg (by rw [hhead]; omega)]
  rw [if_neg ?stop]
  case stop =>
    intro hcon
    rcases hsuf with hnil | hsp
    · have h1 := hcon.1
      rw [hclen] at h1
      subst hnil
      simp only [List.length_append, List.length_nil] at h1
      omega
    · rw [hatI] at hcon
      exact hcon.2.2.1 hsp

/-- The scan of `needs_escape` finds every punctuation or whitespace
byte when no NUL cuts it short. -/
theorem needs_escape_scan_plain : ∀ (w : List Char), (∀ c ∈ w, c ≠ nulChar) →
    needs_escape_scan w = false → ∀ c ∈ w, ispunctB c = false ∧ isspaceB c = false := by
  intro w
  induction w with
  | nil => intro _ _ c hc; cases hc
  | cons c cs ih =>
    intro hn hs d hd
    have hcnul := hn c (List.mem_cons_self c cs)
    simp only [needs_escape_scan] at hs
    rw [if_neg hcnul] at hs
    by_cases hps : (ispunctB c || isspaceB c) = true
    · rw [if_pos (by simp [hps])] at hs
      exact absurd hs (by simp)
    · have hps' : (ispunctB c || isspaceB c) = false := by
        revert hps; cases (ispunctB c || isspaceB c) <;> simp
      rw [if_neg (by simp [hps'])] at hs
      rcases List.mem_cons.mp hd with h | h
      · subst h
        simpa [Bool.or_eq_false_iff] using hps'
      · exact ih (fun e hm => hn e (List.mem_cons_of_mem _ hm)) hs d h

/-- A value that `lil_list_to_value` leaves unescaped is a nonempty run
of plain bytes (given NUL-free contents). -/
theorem needs_escape_false_plain (w : List Char) (hnc : ∀ c ∈ w, 32 ≤ c.toNat)
    (h : needs_escape w = false) :
    w ≠ [] ∧ ∀ c ∈ w, ispunctB c = false ∧ isspaceB c = false := by
  have hnul : ∀ c ∈ w, c ≠ nulChar := fun c hc hh => by
    have := hnc c hc
    rw [hh] at this
    revert this
    decide
  cases w with
  | nil => exact absurd h (by decide)
  | cons c cs =>
    refine ⟨by simp, ?_⟩
    intro d hd
    have hscan : needs_escape_scan (c :: cs) = false := by
      have hc := hnul c (List.mem_cons_self c cs)
      simp only [needs_escape] at h
      rwa [if_neg hc] at h
    exact needs_escape_scan_plain (c :: cs) hnul hscan d hd

/-- Each brace byte contributes six bytes to the escaped body. -/
theorem braceCount_le_escBody : ∀ w : List Char, 2 * braceCount w ≤ (escBody w).length := by
  intro w
  induction w with
  | nil => simp [braceCount, escBody]
  | cons c cs ih =>
    by_cases hb : isbrace c = true
    · have h1 : braceCount (c :: cs) = braceCount cs + 1 := by
        simp [braceCount, List.filter_cons, hb]
      have h2 : escBody (c :: cs) = escSeq c ++ escBody cs := by
        rw [show (c :: cs : List Char) = [c] ++ cs by rfl, escBody_append,
          escBody_single_brace c hb]
      have h3 : (escSeq c).length = 6 := by rw [escSeq_explicit c hb]; rfl
      rw [h1, h2]
      simp only [List.length_append, h3]
      omega
    · have hb' : isbrace c = false := by revert hb; cases isbrace c <;> simp
      have h1 : braceCount (c :: cs) = braceCount cs := by
        simp [braceCount, List.filter_cons, hb']
      have h2 : escBody (c :: cs) = c :: escBody cs := by
        simp only [isbrace, Bool.or_eq_false_iff, decide_eq_false_iff_not] at hb'
        simp only [escBody, List.flatMap_cons]
        rw [if_neg hb'.1, if_neg hb'.2]
        rfl
      rw [h1, h2]
      simp only [List.length_cons]
      omega

/-- An unescaped value has no brace bytes. -/
theorem braceCount_unescaped (w : List Char) (hnc : ∀ c ∈ w, 32 ≤ c.toNat)
    (h : needs_escape w = false) : braceCount w = 0 := by
  obtain ⟨-, hpl⟩ := needs_escape_false_plain w hnc h
  have : w.filter isbrace = [] := by
    rw [List.filter_eq_nil_iff]
    intro c hc
    have := (hpl c hc).1
    intro hb
    simp only [isbrace, Bool.or_eq_true, decide_eq_true_eq] at hb
    rcases hb with hh | hh <;> subst hh <;> revert this <;> decide
  simp [braceCount, this]

/-- `word_concat` over one serialized entry (escaped or not). -/
theorem word_concat_entry (w : List Char) (H : Handlers) (s : Interp)
    (pre suf acc : List Char) (gas : Nat)
    (hnc : ∀ c ∈ w, 32 ≤ c.toNat)
    (hcode : s.code = some (pre ++ serializeEntry true w ++ suf))
    (hclen : s.clen = (pre ++ serializeEntry true w ++ suf).length)
    (hhead : s.head = pre.length)
    (herr : s.error = .noError)
    (hg : 2 * braceCount w + 1 ≤ gas)
    (hsuf : suf = [] ∨ isspaceB (atC suf 0) = true) :
    word_concat H gas s acc =
      (some (acc ++ w), { s with head := pre.length + (serializeEntry true w).length }) := by
  by_cases hesc : needs_escape w = true
  · have hser : serializeEntry true w = lbrace :: escBody w ++ [rbrace] := by
      simp [serializeEntry, hesc]
    have hcode' : s.code = some (pre ++ (lbrace :: (escBody w ++ rbrace :: suf))) := by
      rw [hcode, hser]
      simp
    have hclen' : s.clen = (pre ++ (lbrace :: (escBody w ++ rbrace :: suf))).length := by
      rw [hclen, hser]
      simp
    have hmain := word_concat_escaped (braceCount w) w le_rfl H s pre suf acc gas
      hcode' hclen' hhead herr hg hsuf
    rw [hmain]
    rw [show pre.length + (escBody w).length + 2 = pre.length + (serializeEntry true w).length by
      rw [hser]
      simp only [List.length_append, List.length_cons, List.length_nil]
      omega]
  · have hesc' : needs_escape w = false := by revert hesc; cases needs_escape w <;> simp
    obtain ⟨hne, hpl⟩ := needs_escape_false_plain w hnc hesc'
    have hser : serializeEntry true w = w := by simp [serializeEntry, hesc']
    rw [hser] at hcode hclen ⊢
    exact word_concat_unescaped w H s pre suf acc gas hne hpl hcode hclen hhead herr
      (by omega) hsuf

/-- With `ignoreeol` set (as `lil_subst_to_list` runs), nothing is an
end of line for the word loop. -/
theorem ateol_ignoreeol (s : Interp) (h : s.ignoreeol = true) : ateol s = false := by
  simp [ateol, h]

/-- A serialized entry is never empty. -/
theorem serializeEntry_ne_nil (w : List Char) (hnc : ∀ c ∈ w, 32 ≤ c.toNat) :
    serializeEntry true w ≠ [] := by
  by_cases hesc : needs_escape w = true
  · simp [serializeEntry, hesc]
  · have hesc' : needs_escape w = false := by revert hesc; cases needs_escape w <;> simp
    have := (needs_escape_false_plain w hnc hesc').1
    simpa [serializeEntry, hesc'] using this

/-- The first byte of a serialized entry stops `lil_skip_spaces`. -/
theorem serializeEntry_head_facts (w : List Char) (hnc : ∀ c ∈ w, 32 ≤ c.toNat) :
    isspaceB (atC (serializeEntry true w) 0) = false ∧
    atC (serializeEntry true w) 0 ≠ '#' ∧
    atC (serializeEntry true w) 0 ≠ '\\' ∧
    eolchar (atC (serializeEntry true w) 0) = false := by
  by_cases hesc : needs_escape w = true
  · have hser : serializeEntry true w = lbrace :: escBody w ++ [rbrace] := by
      simp [serializeEntry, hesc]
    rw [hser]
    rw [show atC (lbrace :: escBody w ++ [rbrace]) 0 = lbrace from rfl]
    exact ⟨by decide, by decide, by decide, by decide⟩
  · have hesc' : needs_escape w = false := by revert hesc; cases needs_escape w <;> simp
    obtain ⟨hne, hpl⟩ := needs_escape_false_plain w hnc hesc'
    have hser : serializeEntry true w = w := by simp [serializeEntry, hesc']
    rw [hser]
    obtain ⟨c0, w', rfl⟩ : ∃ c0 w', w = c0 :: w' := by
      cases w with
      | nil => exact absurd rfl hne
      | cons a b => exact ⟨a, b, rfl⟩
    have hc0 := hpl c0 (List.mem_cons_self c0 w')
    have pf := plain_char_facts c0 hc0.1 hc0.2
    exact ⟨hc0.2, pf.2.1, pf.2.2.1, pf.2.2.2⟩

/-- A serialized list is at least as long as the list. -/
theorem lil_list_to_value_length_ge : ∀ L : List LilValue,
    (∀ w ∈ L, ∀ c ∈ w, 32 ≤ c.toNat) →
    L.length ≤ (lil_list_to_value L true).length := by
  intro L
  induction L with
  | nil => intro _; simp [lil_list_to_value]
  | cons w rest ih =>
    intro hnc
    have hw := serializeEntry_ne_nil w (hnc w (List.mem_cons_self w rest))
    have hwpos := List.length_pos.mpr hw
    simp only [lil_list_to_value, List.length_cons, List.length_append]
    cases rest with
    | nil => simpa using hwpos
    | cons r rs =>
      have := ih (fun v hv c hc => hnc v (List.mem_cons_of_mem _ hv) c hc)
      simp only [lil_list_to_value] at this
      simp only [List.flatMap_cons, List.length_append, List.length_cons] at *
      omega

/-- The tail serialization of a nonempty remainder. -/
theorem flatMap_entries_cons (rest : List LilValue) (hne : rest ≠ []) :
    rest.flatMap (fun w' => ' ' :: serializeEntry true w') =
      ' ' :: lil_list_to_value rest true := by
  cases rest with
  | nil => exact absurd rfl hne
  | cons r rs => simp [lil_list_to_value, List.flatMap_cons]

/-- The word loop of `substitute` over a serialized list with the cursor
at the first entry collects exactly the list's entries. -/
theorem substitute_loop_entries : ∀ (L : List LilValue) (H : Handlers) (s : Interp)
    (pre : List Char) (acc : List LilValue) (gas : Nat),
    L ≠ [] →
    (∀ w ∈ L, ∀ c ∈ w, 32 ≤ c.toNat) →
    s.code = some (pre ++ lil_list_to_value L true) →
    s.clen = (pre ++ lil_list_to_value L true).length →
    s.head = pre.length →
    s.error = .noError →
    s.ignoreeol = true →
    L.length + 1 ≤ gas →
    substitute_loop H gas s acc = (some (acc ++ L), { s with head := s.clen }) := by
  intro L
  induction L with
  | nil => intro H s pre acc gas hne; exact absurd rfl hne
  | cons w rest ih =>
    intro H s pre acc gas hne hnc hcode hclen hhead herr hieol hg
    obtain ⟨g, rfl⟩ : ∃ g, gas = g + 1 := ⟨gas - 1, by omega⟩
    have hncw := hnc w (List.mem_cons_self w rest)
    have hentry_pos := List.length_pos.mpr (serializeEntry_ne_nil w hncw)
    have hV : lil_list_to_value (w :: rest) true =
        serializeEntry true w ++ rest.flatMap (fun w' => ' ' :: serializeEntry true w') := by
      simp [lil_list_to_value]
    have hbc1 : 2 * braceCount w ≤ (serializeEntry true w).length := by
      by_cases hesc : needs_escape w = true
      · have hser : serializeEntry true w = lbrace :: escBody w ++ [rbrace] := by
          simp [serializeEntry, hesc]
        have := braceCount_le_escBody w
        rw [hser]
        simp only [List.length_append, List.length_cons, List.length_nil]
        omega
      · have hesc' : needs_escape w = false := by revert hesc; cases needs_escape w <;> simp
        rw [braceCount_unescaped w hncw hesc']
        omega
    have hc1 : s.head < s.clen := by
      rw [hhead, hclen, hV]
      simp only [List.length_append]
      omega
    have hc2 : ¬ ateol s = true := by
      rw [ateol_ignoreeol s hieol]
      simp
    simp only [substitute_loop]
    rw [if_pos ⟨hc1, hc2, herr⟩]
    cases rest with
    | nil =>
      have hcode' : s.code = some (pre ++ serializeEntry true w ++ []) := by
        rw [hcode, hV]
        simp
      have hclen' : s.clen = (pre ++ serializeEntry true w ++ []).length := by
        rw [hclen, hV]
        simp
      have hbc : 2 * braceCount w + 1 ≤ s.clen + 1 := by
        rw [hclen']
        simp only [List.length_append, List.length_nil]
        omega
      have hwc := word_concat_entry w H s pre [] [] (s.clen + 1) hncw hcode' hclen'
        hhead herr hbc (Or.inl rfl)
      simp only [hwc, List.nil_append]
      have hhead1 : pre.length + (serializeEntry true w).length = s.clen := by
        rw [hclen']
        simp
      have hskip : lil_skip_spaces { s with head := pre.length + (serializeEntry true w).length } =
          { s with head := pre.length + (serializeEntry true w).length } := by
        unfold lil_skip_spaces
        show ({ s with head := (skip_spaces_pos s.codeS s.clen s.ignoreeol (s.clen + 1) (pre.length + (serializeEntry true w).length)) } : Interp) = _
        rw [skip_spaces_pos_end _ _ _ _ _ (by rw [hhead1]; omega)]
      rw [hskip]
      obtain ⟨g', rfl⟩ : ∃ g', g = g' + 1 := ⟨g - 1, by simp at hg; omega⟩
      simp only [substitute_loop]
      rw [if_neg ?last]
      case last =>
        intro hcon
        have h1 : pre.length + (serializeEntry true w).length < s.clen := hcon.1
        rw [hhead1] at h1
        exact absurd h1 (lt_irrefl _)
      rw [hhead1]
    | cons r rs =>
      have hrestne : (r :: rs : List LilValue) ≠ [] := by simp
      have hncr := hnc r (List.mem_cons_of_mem _ (List.mem_cons_self r rs))
      have hflat : (r :: rs).flatMap (fun w' => ' ' :: serializeEntry true w') =
          ' ' :: lil_list_to_value (r :: rs) true := flatMap_entries_cons _ hrestne
      have hcode' : s.code =
          some (pre ++ serializeEntry true w ++ (' ' :: lil_list_to_value (r :: rs) true)) := by
        rw [hcode, hV, hflat]
        simp
      have hclen' : s.clen =
          (pre ++ serializeEntry true w ++ (' ' :: lil_list_to_value (r :: rs) true)).length := by
        rw [hclen, hV, hflat]
        simp
      have hbc : 2 * braceCount w + 1 ≤ s.clen + 1 := by
        rw [hclen']
        simp only [List.length_append, List.length_cons]
        omega
      have hwc := word_concat_entry w H s pre (' ' :: lil_list_to_value (r :: rs) true)
        [] (s.clen + 1) hncw hcode' hclen' hhead herr hbc
        (Or.inr (by show isspaceB (atC (' ' :: lil_list_to_value (r :: rs) true) 0) = true; rfl))
      simp only [hwc, List.nil_append]
      have hrpos := List.length_pos.mpr (serializeEntry_ne_nil r hncr)
      have hcS : s.codeS =
          pre ++ serializeEntry true w ++ (' ' :: lil_list_to_value (r :: rs) true) := by
        simp [Interp.codeS, hcode']
      have hatsp : atC s.codeS (pre.length + (serializeEntry true w).length) = ' ' := by
        rw [hcS, show pre.length + (serializeEntry true w).length =
          (pre ++ serializeEntry true w).length by simp, atC_start]
        rfl
      have hatr : atC s.codeS (pre.length + (serializeEntry true w).length + 1) =
          atC (serializeEntry true r) 0 := by
        rw [hcS, show pre.length + (serializeEntry true w).length + 1 =
          (pre ++ serializeEntry true w).length + 1 by simp, atC_append_right _ _ 1,
          atC_cons_succ]
        rw [show (lil_list_to_value (r :: rs) true) = serializeEntry true r ++
          (r :: rs).tail.flatMap (fun w' => ' ' :: serializeEntry true w') by simp [lil_list_to_value]]
        rw [atC_append_left _ _ _ hrpos]
      have hrf := serializeEntry_head_facts r hncr
      have hlt2 : pre.length + (serializeEntry true w).length < s.clen := by
        rw [hclen']
        simp only [List.length_append, List.length_cons]
        omega
      have hstep : skip_spaces_pos s.codeS s.clen true (s.clen + 1)
          (pre.length + (serializeEntry true w).length) =
          pre.length + (serializeEntry true w).length + 1 := by
        rw [skip_spaces_pos_space _ _ _ _ _ hlt2 hatsp]
        rw [skip_spaces_pos_stop _ _ _ _ _ (by rw [hatr]; exact hrf.1) (by rw [hatr]; exact hrf.2.1)
          (by rw [hatr]; exact hrf.2.2.1) (by rw [hatr]; exact hrf.2.2.2)]
      have hskip : lil_skip_spaces { s with head := pre.length + (serializeEntry true w).length } =
          { s with head := pre.length + (serializeEntry true w).length + 1 } := by
        unfold lil_skip_spaces
        show ({ s with head := (skip_spaces_pos s.codeS s.clen s.ignoreeol (s.clen + 1) (pre.length + (serializeEntry true w).length)) } : Interp) = _
        rw [hieol, hstep]
      rw [hskip]
      have hih := ih H { s with head := pre.length + (serializeEntry true w).length + 1 }
        (pre ++ serializeEntry true w ++ [' ']) (acc ++ [w]) g hrestne
        (fun v hv c hc => hnc v (List.mem_cons_of_mem _ hv) c hc)
        (by rw [hcode']; simp)
        (by rw [hclen']; simp)
        (by simp only [List.length_append, List.length_cons, List.length_nil])
        herr hieol
        (by simp only [List.length_cons] at hg ⊢; omega)
      rw [hih]
      rw [show (acc ++ [w]) ++ (r :: rs) = acc ++ (w :: r :: rs) by simp]

/-- C3: list–value round trip.  For every list `L` of values whose bytes
contain no control characters (and an interpreter with no pending
error), serializing with `lil_list_to_value(L, escape=1)` and re-parsing
the resulting value with `lil_subst_to_list` — under arbitrary
substitution handlers, which the round trip never invokes — yields a
list of the same length whose elements are byte-for-byte equal to the
elements of `L`. -/
theorem subst_to_list_roundtrip (H : Handlers) (s : Interp) (L : List LilValue)
    (hs : s.error = .noError)
    (hnc : ∀ w ∈ L, ∀ c ∈ w, 32 ≤ c.toNat ∧ c.toNat ≠ 127) :
    (lil_subst_to_list_h H s (some (lil_list_to_value L true))).1 = L ∧
    ((lil_subst_to_list_h H s (some (lil_list_to_value L true))).1).length = L.length := by
  have hmain : (lil_subst_to_list_h H s (some (lil_list_to_value L true))).1 = L := by
    cases L with
    | nil =>
      simp [lil_subst_to_list_h, lil_list_to_value, lil_to_string, substitute,
        lil_skip_spaces, skip_spaces_pos, substitute_loop]
    | cons w rest =>
      have hnc' : ∀ v ∈ (w :: rest), ∀ c ∈ v, 32 ≤ c.toNat :=
        fun v hv c hc => (hnc v hv c hc).1
      have hncw := hnc' w (List.mem_cons_self w rest)
      have hwpos := List.length_pos.mpr (serializeEntry_ne_nil w hncw)
      have hlen := lil_list_to_value_length_ge (w :: rest) hnc'
      have hhf := serializeEntry_head_facts w hncw
      have hV0 : atC (lil_list_to_value (w :: rest) true) 0 =
          atC (serializeEntry true w) 0 := by
        rw [show lil_list_to_value (w :: rest) true = serializeEntry true w ++
          rest.flatMap (fun v => ' ' :: serializeEntry true v) by simp [lil_list_to_value]]
        exact atC_append_left _ _ 0 hwpos
      simp only [lil_subst_to_list_h, lil_to_string, Option.getD_some, substitute]
      have hskip : lil_skip_spaces { s with code := some (lil_list_to_value (w :: rest) true), clen := (lil_list_to_value (w :: rest) true).length, head := 0, ignoreeol := true } = { s with code := some (lil_list_to_value (w :: rest) true), clen := (lil_list_to_value (w :: rest) true).length, head := 0, ignoreeol := true } := by
        unfold lil_skip_spaces
        show ({ s with code := some (lil_list_to_value (w :: rest) true), clen := (lil_list_to_value (w :: rest) true).length, head := (skip_spaces_pos (lil_list_to_value (w :: rest) true) (lil_list_to_value (w :: rest) true).length true ((lil_list_to_value (w :: rest) true).length + 1) 0), ignoreeol := true } : Interp) = _
        rw [skip_spaces_pos_stop _ _ _ _ _ (by rw [hV0]; exact hhf.1) (by rw [hV0]; exact hhf.2.1)
          (by rw [hV0]; exact hhf.2.2.1) (by rw [hV0]; exact hhf.2.2.2)]
      rw [hskip]
      have hloop := substitute_loop_entries (w :: rest) H { s with code := some (lil_list_to_value (w :: rest) true), clen := (lil_list_to_value (w :: rest) true).length, head := 0, ignoreeol := true }
        [] [] ((lil_list_to_value (w :: rest) true).length + 1)
        (by simp) hnc' (by simp) (by simp) (by simp) hs rfl
        (by simp only [List.length_cons] at hlen ⊢; omega)
      rw [hloop]
      simp
  exact ⟨hmain, by rw [hmain]⟩

theorem subst_to_list_roundtrip_witness :
    (lil_new.error = .noError ∧
     (∀ w ∈ ["hello".toList, "a b".toList, "x\x7by".toList, ([] : LilValue)],
        ∀ c ∈ w, 32 ≤ c.toNat ∧ c.toNat ≠ 127)) ∧
    ((lil_subst_to_list_h (mkHandlers 0) lil_new
        (some (lil_list_to_value ["hello".toList, "a b".toList, "x\x7by".toList, ([] : LilValue)] true))).1 =
      ["hello".toList, "a b".toList, "x\x7by".toList, ([] : LilValue)] ∧
     ((lil_subst_to_list_h (mkHandlers 0) lil_new
        (some (lil_list_to_value ["hello".toList, "a b".toList, "x\x7by".toList, ([] : LilValue)] true))).1).length =
      (["hello".toList, "a b".toList, "x\x7by".toList, ([] : LilValue)] : List LilValue).length) :=
  ⟨⟨by decide, by decide⟩,
   subst_to_list_roundtrip (mkHandlers 0) lil_new
     ["hello".toList, "a b".toList, "x\x7by".toList, ([] : LilValue)] (by decide) (by decide)⟩
